import Mathlib

/-!
# Verification of rescape_graphene schema helpers

A shallow embedding of `rescape_graphene/graphql_helpers/schema_helpers.py`.

Python dicts are embedded as insertion-ordered association lists with
distinct keys (`PyDict`).  Python runtime values are embedded as the
inductive `GVal`; Python class objects (graphene scalar and object type
classes) are carried as named `GVal.vtype` values, function/lambda values
as named `GVal.vfunc` values, and instantiated graphene field objects as
`GVal.vinst` values carrying the name of their class.  Code that can raise
returns `Except String _`.

The module depends on the `rescape_python_helpers.ramda` library (an
external pip dependency, named `R` in the source).  Those helpers are
embedded here from their documented ramda semantics, one Lean definition
per helper, with the Python name kept.
-/

namespace RescapeGraphene

/-- The kind of a Python class carried in a `GVal.vtype`:
graphene `Scalar` subclasses, graphene `ObjectType` subclasses,
and anything else. -/
inductive GClassKind where
  | scalarClass
  | objectClass
  | otherClass
  deriving Repr, DecidableEq

/-- Embedded Python runtime value.

  * `vnone` — Python `None`
  * `vbool`, `vint`, `vstr` — primitives
  * `vlist` — a Python list
  * `vdict` — a Python dict as an insertion-ordered association list
  * `vtype name kind` — a Python class object (e.g. `graphene.Int`),
    identified by its name and whether it is a graphene `Scalar` or
    `ObjectType` subclass
  * `vfunc name arity` — a Python function or lambda value, identified by
    a symbolic name and the number of its parameters
  * `vinst clsName kind info` — an instantiated object (e.g. a graphene
    field instance) carrying the name and kind of its class and a symbolic
    description of the construction arguments -/
inductive GVal where
  | vnone : GVal
  | vbool : Bool → GVal
  | vint : Int → GVal
  | vstr : String → GVal
  | vlist : List GVal → GVal
  | vdict : List (String × GVal) → GVal
  | vtype : String → GClassKind → GVal
  | vfunc : String → Nat → GVal
  | vinst : String → GClassKind → String → GVal
  deriving Repr

mutual

/-- Structural (Python `==`) equality test on embedded values. -/
def gbeq : GVal → GVal → Bool
  | .vnone, .vnone => true
  | .vbool a, .vbool b => a == b
  | .vint a, .vint b => a == b
  | .vstr a, .vstr b => a == b
  | .vlist a, .vlist b => gbeqList a b
  | .vdict a, .vdict b => gbeqDict a b
  | .vtype a ka, .vtype b kb => a == b && ka == kb
  | .vfunc a na, .vfunc b nb => a == b && na == nb
  | .vinst a ka ia, .vinst b kb ib => a == b && ka == kb && ia == ib
  | _, _ => false

/-- Pointwise equality test on embedded lists. -/
def gbeqList : List GVal → List GVal → Bool
  | [], [] => true
  | a :: as, b :: bs => gbeq a b && gbeqList as bs
  | _, _ => false

/-- Pointwise equality test on embedded dicts. -/
def gbeqDict : List (String × GVal) → List (String × GVal) → Bool
  | [], [] => true
  | (ka, va) :: as, (kb, vb) :: bs => ka == kb && gbeq va vb && gbeqDict as bs
  | _, _ => false

end

mutual

def gbeq_iff : ∀ a b : GVal, gbeq a b = true ↔ a = b
  | .vnone, b => by cases b <;> simp [gbeq]
  | .vbool a, b => by cases b <;> simp [gbeq]
  | .vint a, b => by cases b <;> simp [gbeq]
  | .vstr a, b => by cases b <;> simp [gbeq]
  | .vlist a, b => by
      cases b <;> simp [gbeq]
      exact gbeqList_iff a _
  | .vdict a, b => by
      cases b <;> simp [gbeq]
      exact gbeqDict_iff a _
  | .vtype a ka, b => by cases b <;> simp [gbeq]
  | .vfunc a na, b => by cases b <;> simp [gbeq]
  | .vinst a ka ia, b => by cases b <;> simp [gbeq, and_assoc]

def gbeqList_iff : ∀ a b : List GVal, gbeqList a b = true ↔ a = b
  | [], b => by cases b <;> simp [gbeqList]
  | a :: as, b => by
      cases b with
      | nil => simp [gbeqList]
      | cons b bs =>
          simp only [gbeqList, Bool.and_eq_true, List.cons.injEq]
          exact and_congr (gbeq_iff a b) (gbeqList_iff as bs)

def gbeqDict_iff : ∀ a b : List (String × GVal), gbeqDict a b = true ↔ a = b
  | [], b => by cases b <;> simp [gbeqDict]
  | (ka, va) :: as, b => by
      cases b with
      | nil => simp [gbeqDict]
      | cons kvb bs =>
          obtain ⟨kb, vb⟩ := kvb
          simp only [gbeqDict, Bool.and_eq_true, List.cons.injEq, Prod.mk.injEq,
            beq_iff_eq]
          rw [gbeq_iff va vb, gbeqDict_iff as bs]

end

instance : DecidableEq GVal := fun a b => decidable_of_iff _ (gbeq_iff a b)

/-- A Python dict: insertion-ordered association list. -/
abbrev PyDict := List (String × GVal)

/-- Python truthiness of an embedded value. -/
def truthy : GVal → Bool
  | .vnone => false
  | .vbool b => b
  | .vint n => n != 0
  | .vstr s => s != ""
  | .vlist l => !l.isEmpty
  | .vdict d => !d.isEmpty
  | .vtype _ _ => true
  | .vfunc _ _ => true
  | .vinst _ _ _ => true

/-- Key lookup in a dict (`dct[key]` when the key is present). -/
def dictGet (k : String) (d : PyDict) : Option GVal :=
  (d.find? (fun kv => kv.1 = k)).map (·.2)

/-- `key in dct`. -/
def dictHas (k : String) (d : PyDict) : Bool :=
  (dictGet k d).isSome

/-- The list of keys of a dict, in order. -/
def dictKeys (d : PyDict) : List String := d.map (·.1)

/-- The list of values of a dict, in order. -/
def dictValues (d : PyDict) : List GVal := d.map (·.2)

/-! ## Python string primitives

Implemented on `List Char` to mirror the semantics of Python
`in`, `str.replace`, `str.split` and `str.endswith`. -/

/-- Does the first character list start with the second? -/
def charsStart : List Char → List Char → Bool
  | _, [] => true
  | [], _ :: _ => false
  | c :: cs, d :: ds => c = d && charsStart cs ds

/-- Does the pattern (second argument) occur as a contiguous run in the
first argument?  Mirrors Python `pat in s`. -/
def charsSub : List Char → List Char → Bool
  | [], pat => pat.isEmpty
  | c :: cs, pat => charsStart (c :: cs) pat || charsSub cs pat

/-- Replace every non-overlapping occurrence of `pat` by `repl`, scanning
left to right, with an explicit recursion bound (each step consumes at
least one character, so a bound of the list length is exact).  Mirrors
Python `s.replace(pat, repl)` for non-empty `pat`. -/
def replChars (pat repl : List Char) : Nat → List Char → List Char
  | 0, s => s
  | _ + 1, [] => []
  | f + 1, c :: cs =>
    if pat ≠ [] ∧ charsStart (c :: cs) pat then
      repl ++ replChars pat repl f (List.drop (pat.length - 1) cs)
    else
      c :: replChars pat repl f cs

/-- Split on every non-overlapping occurrence of `pat`, scanning left to
right, with an explicit recursion bound as in `replChars`.  Mirrors
Python `s.split(pat)` for non-empty `pat`. -/
def splitChars (pat : List Char) : Nat → List Char → List (List Char)
  | 0, s => [s]
  | _ + 1, [] => [[]]
  | f + 1, c :: cs =>
    if pat ≠ [] ∧ charsStart (c :: cs) pat then
      [] :: splitChars pat f (List.drop (pat.length - 1) cs)
    else
      match splitChars pat f cs with
      | [] => [[c]]
      | p :: ps => (c :: p) :: ps

/-- Python `pat in s` on strings. -/
def strHasSub (s pat : String) : Bool := charsSub s.data pat.data

/-- Python `s.replace(pat, repl)` on strings. -/
def strReplace (s pat repl : String) : String :=
  ⟨replChars pat.data repl.data s.data.length s.data⟩

/-- Python `s.split(pat)` on strings. -/
def strSplit (s pat : String) : List String :=
  (splitChars pat.data s.data.length s.data).map (⟨·⟩)

/-- Python `s.endswith(pat)` on strings. -/
def strEnds (s pat : String) : Bool :=
  charsStart s.data.reverse pat.data.reverse

/-! ## `rescape_python_helpers.ramda` helpers

The source imports these as `R`.  The library is an external pip
dependency (not part of this repository), so each helper is embedded here
from its ramda semantics; the Python names are kept. -/

/-- `R.prop_or(default, key, dct)`: the value at `key`, or `default` when
the key is absent. -/
def prop_or (default : GVal) (key : String) (d : PyDict) : GVal :=
  (dictGet key d).getD default

/-- `R.prop(key, dct)` / `R.getitem(key, dct)`: the value at `key`;
raises (`KeyError`) when the key is absent. -/
def propE (key : String) (d : PyDict) : Except String GVal :=
  match dictGet key d with
  | some v => .ok v
  | none => .error ("KeyError: " ++ key)

/-- `R.has(key, dct)`. -/
def hasKey (key : String) (d : PyDict) : Bool := dictHas key d

/-- `R.contains(x, v)`: list membership, or substring test when both are
strings. -/
def containsV (x : GVal) (v : GVal) : Bool :=
  match v with
  | .vlist l => l.any (· = x)
  | .vstr s =>
    match x with
    | .vstr xs => strHasSub s xs
    | _ => false
  | _ => false

/-- `R.prop_eq_or(default, key, val, dct)`: `dct[key] == val` when the key
is present, else `default`. -/
def prop_eq_or (default : Bool) (key : String) (v : GVal) (d : PyDict) : Bool :=
  match dictGet key d with
  | some w => w = v
  | none => default

/-- `R.prop_eq_or_in(key, val, dct)`: the value at `key` equals `val` or
contains `val`; `False` when the key is absent. -/
def prop_eq_or_in (key : String) (v : GVal) (d : PyDict) : Bool :=
  match dictGet key d with
  | some w => w = v || containsV v w
  | none => false

/-- `R.prop_eq_or_in_or(default, key, val, dct)`: like `prop_eq_or_in`
but with an explicit default for an absent key. -/
def prop_eq_or_in_or (default : Bool) (key : String) (v : GVal) (d : PyDict) : Bool :=
  match dictGet key d with
  | some w => w = v || containsV v w
  | none => default

/-- `R.filter_dict(pred, dct)`: the entries whose `(key, value)` pair
satisfies the predicate, in order. -/
def filter_dict (p : String × GVal → Bool) (d : PyDict) : PyDict := d.filter p

/-- `R.map_dict(f, dct)`: map over the values, keeping keys and order. -/
def map_dict (f : GVal → GVal) (d : PyDict) : PyDict :=
  d.map (fun kv => (kv.1, f kv.2))

/-- `R.map_dict` with a fallible mapper: the whole call raises when the
mapper raises on any value (Python exception propagation). -/
def map_dictE (f : GVal → Except String GVal) (d : PyDict) : Except String PyDict :=
  match d with
  | [] => .ok []
  | (k, v) :: rest => do
    let w ← f v
    let rest2 ← map_dictE f rest
    .ok ((k, w) :: rest2)

/-- `R.map_with_obj(f, dct)`: map over the values with access to the key. -/
def map_with_obj (f : String → GVal → GVal) (d : PyDict) : PyDict :=
  d.map (fun kv => (kv.1, f kv.1 kv.2))

/-- `R.map_with_obj` with a fallible mapper. -/
def map_with_objE (f : String → GVal → Except String GVal) (d : PyDict) :
    Except String PyDict :=
  match d with
  | [] => .ok []
  | (k, v) :: rest => do
    let w ← f k v
    let rest2 ← map_with_objE f rest
    .ok ((k, w) :: rest2)

/-- `R.map_with_obj_to_values(f, dct)`: list of `f key value` in order. -/
def map_with_obj_to_values (f : String → GVal → GVal) (d : PyDict) : List GVal :=
  d.map (fun kv => f kv.1 kv.2)

/-- `R.omit(keys, dct)`. -/
def omitKeys (ks : List String) (d : PyDict) : PyDict :=
  d.filter (fun kv => ¬ ks.contains kv.1)

/-- `R.pick(keys, dct)`. -/
def pick (ks : List String) (d : PyDict) : PyDict :=
  d.filter (fun kv => ks.contains kv.1)

/-- `R.to_pairs(dct)`: a dict already is its ordered pair list here. -/
def to_pairs (d : PyDict) : List (String × GVal) := d

/-- Insert or overwrite one key, keeping the position of an existing key
(Python `dct[k] = v`). -/
def dictInsert (d : PyDict) (k : String) (v : GVal) : PyDict :=
  if dictHas k d then d.map (fun kv => if kv.1 = k then (kv.1, v) else kv)
  else d ++ [(k, v)]

/-- `R.from_pairs(pairs)`: Python `dict(pairs)`, later pairs winning. -/
def from_pairs (l : List (String × GVal)) : PyDict :=
  l.foldl (fun acc kv => dictInsert acc kv.1 kv.2) []

/-- `R.merge(d1, d2)`: Python `{**d1, **d2}`. -/
def merge (d1 d2 : PyDict) : PyDict :=
  d2.foldl (fun acc kv => dictInsert acc kv.1 kv.2) d1

/-- `R.merge_all(dicts)`: left fold of `merge` from the empty dict. -/
def merge_all (ds : List PyDict) : PyDict :=
  ds.foldl merge []

/-- `R.item_path_or(default, path, v)`: walk nested dicts along `path`,
returning `default` when a step is missing or not a dict. -/
def item_path_or (default : GVal) : List String → GVal → GVal
  | [], v => v
  | k :: rest, .vdict d =>
    match dictGet k d with
    | some v => item_path_or default rest v
    | none => default
  | _ :: _, _ => default

/-- The dict-nesting depth of the entries of a dict: the bound needed by
the recursions that descend only into dict values. -/
def ddepthD : List (String × GVal) → Nat
  | [] => 0
  | (_, .vdict d) :: rest => max (ddepthD d + 1) (ddepthD rest)
  | _ :: rest => ddepthD rest

/-- The dict-nesting depth of a value. -/
def ddepth : GVal → Nat
  | .vdict d => ddepthD d + 1
  | _ => 1

/-- The recursion of `R.merge_deep` with an explicit depth bound (the
recursion descends only into values of the right dict, so a bound of the
dict-nesting depth of the right value is always sufficient). -/
def mergeDeepFuel : Nat → GVal → GVal → GVal
  | 0, _, b => b
  | f + 1, .vdict da, .vdict db =>
      .vdict (db.foldl
        (fun acc kv =>
          if dictHas kv.1 acc then
            acc.map (fun kv0 =>
              if kv0.1 = kv.1 then (kv0.1, mergeDeepFuel f kv0.2 kv.2) else kv0)
          else acc ++ [kv])
        da)
  | _ + 1, _, b => b

/-- `R.merge_deep(a, b)`: right-biased merge, recursing where both values
are dicts. -/
def merge_deep (a b : GVal) : GVal := mergeDeepFuel (ddepth b) a b

/-- One entry of a right dict deep-merged into an accumulator dict. -/
def mergeEntryDeep (acc : PyDict) (k : String) (vb : GVal) : PyDict :=
  if dictHas k acc then
    acc.map (fun kv0 => if kv0.1 = k then (kv0.1, merge_deep kv0.2 vb) else kv0)
  else acc ++ [(k, vb)]

/-- `R.merge_deep` on two dicts: fold the right entries into the left. -/
def mergeDictsDeep (da db : PyDict) : PyDict :=
  db.foldl (fun acc kv => mergeEntryDeep acc kv.1 kv.2) da

/-- `R.merge_deep_all(dicts)`: left fold of `R.merge_deep` from the empty
dict. -/
def merge_deep_all (ds : List PyDict) : PyDict :=
  ds.foldl mergeDictsDeep []

/-! ## Module constants (schema_helpers.py lines 30-54) -/

def DENY : String := "deny"
def REQUIRE : String := "require"
def UNIQUE : String := "unique"
def IGNORE : String := "ignore"
def PRIMARY : String := "primary"
def ALLOW : String := "allow"
def CREATE : String := "create"
def READ : String := "read"
def UPDATE : String := "update"
def DELETE : String := "delete"

/-! ## graphene classes

The graphene library classes referenced by `FILTER_FIELDS` and the type
mapping, embedded as named `GVal.vtype` values.  The graphene scalar
classes (`Int`, `Float`, `String`, `Date`, `DateTime`, `JSONString`, ...)
are pairwise unrelated subclasses of `Scalar`, so `issubclass` between two
of them holds exactly on equal names. -/

def gInt : GVal := .vtype "Int" .scalarClass
def gFloat : GVal := .vtype "Float" .scalarClass
def gString : GVal := .vtype "String" .scalarClass
def gDate : GVal := .vtype "Date" .scalarClass
def gDateTime : GVal := .vtype "DateTime" .scalarClass
def gJSONString : GVal := .vtype "JSONString" .scalarClass
def gInputObjectType : GVal := .vtype "InputObjectType" .otherClass

/-- `issubclass` restricted to the graphene classes appearing in
`allowed_types` lists: none of them extends another, so the test is name
and kind equality. -/
def issubclassG (a b : GVal) : Bool := a = b

/-! ## FILTER_FIELDS (schema_helpers.py lines 62-119)

The module-level `FILTER_FIELDS` value depends on `settings.TESTING`; it
is embedded as a function of that flag.  The two `type_modifier` lambdas
(`lambda typ: graphene.List(typ)`) are embedded as the symbolic function
value `vfunc "graphene_list_of" 1`. -/

/-- The one-parameter lambda `lambda typ: graphene.List(typ)`. -/
def listTypeModifier : GVal := .vfunc "graphene_list_of" 1

/-- The base lookup table chosen by `R.if_else(settings.TESTING, ...)`:
the minimal debugging table when testing, the full table otherwise. -/
def filterFieldsBase (testing : Bool) : PyDict :=
  if testing then
    [("contains", .vdict []),
     ("icontains", .vdict []),
     ("in", .vdict [("type_modifier", listTypeModifier)])]
  else
    [("year", .vdict [("allowed_types", .vlist [gDate, gDateTime])]),
     ("month", .vdict [("allowed_types", .vlist [gDate, gDateTime])]),
     ("day", .vdict [("allowed_types", .vlist [gDate, gDateTime])]),
     ("week_day", .vdict [("allowed_types", .vlist [gDate, gDateTime])]),
     ("hour", .vdict [("allowed_types", .vlist [gDateTime])]),
     ("minute", .vdict [("allowed_types", .vlist [gDateTime])]),
     ("second", .vdict [("allowed_types", .vlist [gDateTime])]),
     ("exact", .vdict []),
     ("iexact", .vdict []),
     ("contains", .vdict []),
     ("icontains", .vdict []),
     ("in", .vdict [("type_modifier", listTypeModifier)]),
     ("gt", .vdict [("allowed_types", .vlist [gInt, gFloat, gDateTime, gDate])]),
     ("gte", .vdict [("allowed_types", .vlist [gInt, gFloat, gDateTime, gDate])]),
     ("lt", .vdict [("allowed_types", .vlist [gInt, gFloat, gDateTime, gDate])]),
     ("lte", .vdict [("allowed_types", .vlist [gInt, gFloat, gDateTime, gDate])]),
     ("startswith", .vdict [("allowed_types", .vlist [gString])]),
     ("istartswith", .vdict [("allowed_types", .vlist [gString])]),
     ("endswith", .vdict [("allowed_types", .vlist [gString])]),
     ("iendswith", .vdict [("allowed_types", .vlist [gString])]),
     ("range", .vdict [("type_modifier", listTypeModifier)]),
     ("isnull", .vdict []),
     ("regex", .vdict [("allowed_types", .vlist [gString])]),
     ("iregex", .vdict [("allowed_types", .vlist [gString])]),
     ("search", .vdict [("allowed_types", .vlist [gString])]),
     ("contained_by", .vdict []),
     ("overlap", .vdict [("allowed_types", .vlist [gDate, gDateTime])]),
     ("has_key", .vdict [("allowed_types", .vlist [gJSONString, gInputObjectType])]),
     ("has_keys", .vdict [("allowed_types", .vlist [gJSONString, gInputObjectType])]),
     ("has_any_keys", .vdict [("allowed_types", .vlist [gJSONString, gInputObjectType])]),
     ("trigram_similar", .vdict [("allowed_types", .vlist [gString])])]

/-- `FILTER_FIELDS`: for each base pair, emit the pair itself and a
`<suffix>_not` pair with the same value (`R.chain`), then `R.from_pairs`. -/
def FILTER_FIELDS (testing : Bool) : PyDict :=
  from_pairs
    ((to_pairs (filterFieldsBase testing)).flatMap
      (fun key_value => [(key_value.1, key_value.2), (key_value.1 ++ "_not", key_value.2)]))

/-! ## guess_update_or_create (schema_helpers.py lines 554-563) -/

/-- `guess_update_or_create(fields_dict)`. -/
def guess_update_or_create (fields_dict : PyDict) : String :=
  if hasKey "id" fields_dict then UPDATE
  else CREATE

/-! ## Type instantiation (schema_helpers.py lines 162-636)

`input_type_class` dynamically constructs graphene `InputObjectType`
subclasses.  The embedding represents each constructed class by a
`GVal.vtype` whose name records the underlying graphene class name and the
crud operation (the `parent_type_classes` argument only adds ancestry
decoration to that generated name and is dropped by the symbolic names);
instantiating a class is represented by a `GVal.vinst`. -/

/-- `call_if_lambda(v)`: calls a zero-argument lambda, otherwise the
identity.  Field dicts are embedded already in evaluated form, so the
embedding is the identity. -/
def call_if_lambda (v : GVal) : GVal := v

/-- The symbolic class or function name of a value. -/
def gname : GVal → String
  | .vnone => "None"
  | .vbool _ => "bool"
  | .vint _ => "int"
  | .vstr s => s
  | .vlist _ => "list"
  | .vdict _ => "dict"
  | .vtype n _ => n
  | .vfunc n _ => n
  | .vinst n _ _ => n

/-- The `R` dict helpers accept any value: a non-dict has no keys.
This coercion lets config values flow through them as in Python. -/
def gvalAsCfg : GVal → PyDict
  | .vdict d => d
  | _ => []

/-- `R.prop_eq_or` applied to an arbitrary config value. -/
def prop_eq_orV (default : Bool) (key : String) (v : GVal) (w : GVal) : Bool :=
  match w with
  | .vdict d => prop_eq_or default key v d
  | _ => default

/-- `R.prop_eq_or_in` applied to an arbitrary config value (absent key,
including a non-dict config, gives `False`). -/
def prop_eq_or_inV (key : String) (v : GVal) (w : GVal) : Bool :=
  match w with
  | .vdict d => prop_eq_or_in key v d
  | _ => false

/-- `v.__class__` for the values the filter machinery classifies. -/
def classOfV : GVal → GVal
  | .vinst n k _ => .vtype n k
  | _ => .vtype "object" .otherClass

/-- The name of the `InputObjectType` subclass made by
`input_type_class(field_config, crud, ...)` (line 192 and 236): the class
is named after `field_config['graphene_type'] or field_config['type']`
(direct indexing, so a missing `graphene_type` key raises `KeyError`)
and the crud operation. -/
def input_type_class_name (field_config : PyDict) (crud : String) :
    Except String String := do
  let g ← propE "graphene_type" field_config
  let gc ← if truthy g then pure g else propE "type" field_config
  .ok (gname gc ++ "Related" ++ crud ++ "InputType")

/-- Applying a `type_modifier` lambda to a resolved type (e.g. wrapping in
`graphene.List`): an instance described by the modifier and the type. -/
def applyTypeModifier (m r : GVal) : GVal :=
  .vinst (gname m) .otherClass (gname r)

/-- Instantiating a resolved graphene type with the `required` flag. -/
def instantiateRequired (r : GVal) (required : Bool) : GVal :=
  .vinst (gname r) (match r with | .vtype _ k => k | _ => .otherClass)
    (if required then "required" else "optional")

/-- `instantiate_graphene_type(field_config, parent_type_classes, crud)`
(lines 566-617).

  * the type is `field_config['graphene_type']` when that key is present,
    else `field_config['type']` when present, else `None` (`R.prop_or`
    nesting on line 579);
  * a falsy type raises the missing-type exception (lines 581-585);
  * an `ObjectType` subclass and a zero-parameter lambda are converted to
    a dynamically built `InputObjectType` subclass (symbolic `vtype`),
    a lambda with parameters is applied to the crud value, any other value
    is used as is;
  * a truthy `type_modifier` is applied to the resolved type, otherwise
    the resolved type is instantiated with
    `required=R.prop_eq_or_in_or(False, crud, REQUIRE, field_config)`.

The branch computing `resolved_graphene_type` (lines 586-607) is this
separate definition; `instantiate_graphene_type` below is the rest. -/
def resolveGrapheneType (graphene_type : GVal) (field_config : PyDict)
    (crud : String) : Except String GVal :=
  match graphene_type with
  | .vtype n .objectClass => do
      let fields ← propE "fields" field_config
      let nm ← input_type_class_name
        [("graphene_type", .vtype n .objectClass), ("fields", fields)] crud
      pure (GVal.vtype nm .otherClass)
  | .vfunc n 0 => do
      let lazyType := GVal.vtype ("LazyResultOf " ++ n) .otherClass
      let fields ← propE "fields" field_config
      let nm ← input_type_class_name
        [("graphene_type", lazyType), ("fields", call_if_lambda fields)] crud
      pure (GVal.vtype nm .otherClass)
  | .vfunc n (k + 1) =>
      pure (GVal.vfunc (n ++ " applied to " ++ crud) k)
  | t => pure t

def instantiate_graphene_type (field_config : PyDict) (crud : String) :
    Except String GVal := do
  let graphene_type := prop_or (prop_or .vnone "type" field_config) "graphene_type"
    field_config
  if ¬ truthy graphene_type then
    .error "No graphene_type nor type parameter found on the field value."
  else
    let graphene_type_modifier := prop_or .vnone "type_modifier" field_config
    let resolved_graphene_type ← resolveGrapheneType graphene_type field_config crud
    if truthy graphene_type_modifier then
      .ok (applyTypeModifier graphene_type_modifier resolved_graphene_type)
    else
      .ok (instantiateRequired resolved_graphene_type
        (prop_eq_or_in_or false crud (.vstr REQUIRE) field_config))

/-- `input_type_fields(fields_dict, crud, parent_type_classes)` (lines
620-636): choose the crud (guessing when falsy), drop every field whose
config maps the crud key to exactly `DENY`, then instantiate each
remaining config. -/
def input_type_fields (fields_dict : PyDict) (crud : String) :
    Except String PyDict :=
  let crud := if crud = "" then guess_update_or_create fields_dict else crud
  map_dictE
    (fun field_config => instantiate_graphene_type (gvalAsCfg field_config) crud)
    (filter_dict
      (fun key_value => ¬ prop_eq_orV false crud (.vstr DENY) key_value.2)
      fields_dict)

/-- `resolve_type(graphene_type, field_config)` (lines 432-441): a scalar
`type` is instantiated directly; anything else goes through
`input_type_class(field_config, READ, ...)` and is instantiated.
`R.prop('type', field_config)` raises when the key is absent. -/
def resolve_type (field_config : GVal) : Except String GVal := do
  let t ← propE "type" (gvalAsCfg field_config)
  match t with
  | .vtype n .scalarClass => .ok (.vinst n .scalarClass "")
  | _ => do
      let nm ← input_type_class_name (gvalAsCfg field_config) READ
      .ok (.vinst nm .otherClass "")

/-- `allowed_read_fields(fields_dict, graphene_type)` (lines 444-462):
drop every field whose `read` entry is or contains `DENY`, then resolve
each remaining config. -/
def allowed_read_fields (fields_dict : PyDict) : Except String PyDict :=
  map_dictE resolve_type
    (filter_dict
      (fun key_value => ¬ prop_eq_or_inV READ (.vstr DENY) key_value.2)
      fields_dict)

/-- Instantiating a type with no arguments (`lambda t: t()`). -/
def instantiatePlain (r : GVal) : GVal :=
  .vinst (gname r) (match r with | .vtype _ k => k | _ => .otherClass) ""

/-- `allowed_filter_pairs(field_name, graphene_type)` (lines 465-488):
keep the `FILTER_FIELDS` entries whose `allowed_types` (when given) admit
the type, and emit `(field_name_suffix, modified or instantiated type)`
for each. -/
def allowed_filter_pairs (testing : Bool) (field_name : String)
    (graphene_type : GVal) : List (String × GVal) :=
  ((filter_dict
      (fun keyvalue =>
        ¬ hasKey "allowed_types" (gvalAsCfg keyvalue.2) ||
          (match dictGet "allowed_types" (gvalAsCfg keyvalue.2) with
           | some (.vlist l) => l.any (fun typ => issubclassG graphene_type typ)
           | _ => false))
      (FILTER_FIELDS testing)).map
    (fun fc =>
      (field_name ++ "_" ++ fc.1,
       if hasKey "type_modifier" (gvalAsCfg fc.2) then
         applyTypeModifier (prop_or .vnone "type_modifier" (gvalAsCfg fc.2))
           graphene_type
       else instantiatePlain graphene_type)))

/-- `make_filters(pair)` (lines 491-503): the pair itself followed by its
filter pairs, as a dict. -/
def make_filters (testing : Bool) (pair : String × GVal) : PyDict :=
  from_pairs ([pair] ++ allowed_filter_pairs testing pair.1 (classOfV pair.2))

/-- `add_filters(argument_dict)` (lines 506-516). -/
def add_filters (testing : Bool) (argument_dict : PyDict) : PyDict :=
  merge_all ((to_pairs argument_dict).map (make_filters testing))

/-- `allowed_filter_arguments(fields_dict, graphene_type)` (lines
532-551): drop every field whose `read` entry is or contains `DENY`,
resolve each remaining config, then add the filter arguments. -/
def allowed_filter_arguments (testing : Bool) (fields_dict : PyDict) :
    Except String PyDict := do
  let resolved ← map_dictE resolve_type
    (filter_dict
      (fun key_value => ¬ prop_eq_or_inV READ (.vstr DENY) key_value.2)
      fields_dict)
  .ok (add_filters testing resolved)

/-! ## update_or_create parameters (schema_helpers.py lines 639-725) -/

/-- Fallible map over a list (Python exception propagation). -/
def mapE {α β : Type} (f : α → Except String β) : List α → Except String (List β)
  | [] => .ok []
  | a :: rest => do
    let b ← f a
    let bs ← mapE f rest
    .ok (b :: bs)

/-- `related_object_id_if_django_type(fields_dict, key, value)` (lines
705-725): when `fields_dict[key]` has a truthy `django_type`, convert
`key={id: v}` into `key_id=v` (`R.prop('id', value)` raises when the value
has no id); otherwise keep the pair.  `fields_dict[key]` is direct
indexing, so a key absent from `fields_dict` raises `KeyError`. -/
def related_object_id_if_django_type (fields_dict : PyDict) (key : String)
    (value : GVal) : Except String PyDict := do
  let cfg ← propE key fields_dict
  if truthy (prop_or .vnone "django_type" (gvalAsCfg cfg)) then do
    let idv ← propE "id" (gvalAsCfg value)
    .ok [(key ++ "_id", idv)]
  else
    .ok [(key, value)]

/-- `key_value_based_on_unique_or_foreign(key_to_modified_key_and_value,
fields_dict, key)` (lines 639-653): the modified pair itself when
`'unique'` is contained in `fields_dict[key]['unique']`
(`R.item_path_or([None], ...)`), otherwise the pair wrapped under
`defaults`. -/
def key_value_based_on_unique_or_foreign
    (key_to_modified_key_and_value : PyDict) (fields_dict : PyDict)
    (key : String) : Except String GVal := do
  let modified_key_value ← propE key key_to_modified_key_and_value
  if containsV (.vstr UNIQUE)
      (item_path_or (.vlist [.vnone]) [key, "unique"] (.vdict fields_dict)) then
    .ok modified_key_value
  else
    .ok (.vdict [("defaults", modified_key_value)])

/-- `input_type_parameters_for_update_or_create(fields_dict,
field_name_to_value)` (lines 656-702).

  * every non-id pair is foreign-key-converted by
    `related_object_id_if_django_type`;
  * with an `id`, return `dict(id=..., defaults=merge_all(...))`;
  * without an `id`, deep-merge the per-field dicts produced by
    `key_value_based_on_unique_or_foreign` and, when the result has
    exactly one key, return its `defaults` value (`R.when` with
    `R.prop('defaults')`, which raises when the single key is not
    `defaults`). -/
def input_type_parameters_for_update_or_create (fields_dict : PyDict)
    (field_name_to_value : PyDict) : Except String GVal := do
  let key_to_modified_key_and_value ← map_with_objE
    (fun key value => do
      let d ← related_object_id_if_django_type fields_dict key value
      pure (GVal.vdict d))
    (omitKeys ["id"] field_name_to_value)
  if hasKey "id" field_name_to_value then do
    let idv ← propE "id" field_name_to_value
    .ok (.vdict [("id", idv),
      ("defaults",
        .vdict (merge_all
          ((dictValues key_to_modified_key_and_value).map gvalAsCfg)))])
  else do
    let items ← mapE
      (fun kv : String × GVal =>
        key_value_based_on_unique_or_foreign key_to_modified_key_and_value
          fields_dict kv.1)
      field_name_to_value
    let to_insert := merge_deep_all (items.map gvalAsCfg)
    if (dictKeys to_insert).length = 1 then
      propE "defaults" to_insert
    else
      .ok (.vdict to_insert)

/-! ## Query kwarg processing (schema_helpers.py lines 898-1022)

A Django `Q(**{k: v})` object with at most one keyword is embedded as
`QExpr`; `~Q(...)` sets `negated`.  The Django model metadata consumed by
`process_query_kwarg` (`_meta._forward_fields_map`, related model of a
relation field, `_meta.related_objects` names) is embedded as `DModel`.
Python recursion depth is made explicit with a fuel parameter. -/

/-- A Q expression built by this module: keyword children and a negation
flag (`~Q` sets it). -/
structure QExpr where
  negated : Bool
  children : List (String × GVal)
  deriving Repr, DecidableEq

mutual

/-- The kind of a Django model field as far as this module inspects it. -/
inductive DField where
  | scalarField : DField
  | jsonField : DField
  | foreignKey : DModel → DField
  | oneToOne : DModel → DField
  | manyToMany : DModel → DField

/-- Django model metadata: `_meta._forward_fields_map` as an ordered
name-to-field list, and the names of `_meta.related_objects`. -/
inductive DModel where
  | mk : List (String × DField) → List String → DModel

end

/-- `model._meta._forward_fields_map` lookup. -/
def DModel.forwardGet (key : String) : DModel → Option DField
  | .mk fwd _ => (fwd.find? (fun kv => kv.1 = key)).map (·.2)

/-- The names of `model._meta.related_objects`. -/
def DModel.relatedNames : DModel → List String
  | .mk _ names => names

/-- `to_array_if_not(value)`. -/
def to_array_if_not : GVal → List GVal
  | .vlist l => l
  | v => [v]

/-- Is the value a Python dict or list? -/
def isDictOrList : GVal → Bool
  | .vdict _ => true
  | .vlist _ => true
  | _ => false

/-- `flatten_dct_until(dct, _flatten_until, sep)` (lines 916-917 and its
use on lines 971-975): flatten nested dicts joining keys with `sep`,
stopping at non-dict values (`_flatten_until` continues for string keys
and non-list values, and only dict values can be descended into). -/
def flatten_dct_until (sep : String) : PyDict → List (String × GVal)
  | [] => []
  | (k, .vdict d) :: rest =>
      ((flatten_dct_until sep d).map (fun kv => (k ++ sep ++ kv.1, kv.2)))
        ++ flatten_dct_until sep rest
  | (k, v) :: rest => (k, v) :: flatten_dct_until sep rest

/-- `_key_matches_filter_field(key)` (lines 920-927): the last `__`
segment of the key is a `FILTER_FIELDS` key. -/
def _key_matches_filter_field (testing : Bool) (key : String) : Bool :=
  hasKey ((strSplit key "__").getLastD "") (FILTER_FIELDS testing)

/-- The head of the children of a Q expression
(`q_expression.children[0]`). -/
def headChildE (q : QExpr) : Except String (String × GVal) :=
  match q.children with
  | c :: _ => .ok c
  | [] => .error "IndexError: children[0]"

/-- A pending request of the mutually recursive query processing
functions, letting a single structurally fuel-bounded interpreter run
them. -/
inductive PQReq where
  | kwargReq : DModel → String → GVal → PQReq
  | valueReq : DModel → GVal → PQReq
  | entriesReq : DModel → List (String × GVal) → PQReq
  | valuesReq : DModel → List GVal → PQReq

/-- The mutual recursion of `process_query_kwarg` (lines 930-1000) and
`process_query_value` (lines 898-913), with an explicit recursion bound
consumed at every internal step (Python bounds the same recursion by its
stack).

`kwargReq` is `process_query_kwarg(model, key, value)`:

  * the `if False and key.endswith('__contains')` guard (line 945) is
    statically dead and drops away;
  * a key ending in `__not` produces `[~Q(**{key.replace('__not', ''):
    value})]` — note Python `str.replace` removes every occurrence;
  * a JSON field key flattens the value with `__` separators, appends
    `__contains` to keys with dict or list values that do not already end
    in a filter field, and produces one `Q` per flattened pair;
  * a forward relation field recurses into the related model over the
    value (made a list by `to_array_if_not`) and prefixes each resulting
    first child with `key__`;
  * any other forward field falls through to `[Q(**{key: value})]`;
  * a key whose first `__` segment names a reverse related object maps
    the value list to ids;
  * anything else produces `[Q(**{key: value})]`.

`valueReq` is `process_query_value(model, value_dict)`: one
`process_query_kwarg` per entry, flattened (`entriesReq`), and
`valuesReq` chains `process_query_value` over a value list. -/
def pqRun (testing : Bool) : Nat → PQReq → Except String (List QExpr)
  | 0, _ => .error "RecursionError"
  | fuel + 1, .kwargReq model key value =>
    if strEnds key "__not" then
      .ok [⟨true, [(strReplace key "__not" "", value)]⟩]
    else
      match model.forwardGet key with
      | some .jsonField =>
        let flat := flatten_dct_until "__" [(key, value)]
        let withContains := flat.map (fun kv =>
          if isDictOrList kv.2 ∧ ¬ _key_matches_filter_field testing kv.1 then
            (kv.1 ++ "__contains", kv.2)
          else kv)
        .ok (withContains.map (fun kv => ⟨false, [kv]⟩))
      | some (.foreignKey related)
      | some (.oneToOne related)
      | some (.manyToMany related) => do
          let q_expressions ← pqRun testing fuel
            (.valuesReq related (to_array_if_not value))
          mapE (fun q => do
            let c ← headChildE q
            pure (QExpr.mk false [(key ++ "__" ++ c.1, c.2)])) q_expressions
      | some .scalarField => .ok [⟨false, [(key, value)]⟩]
      | none =>
        if model.relatedNames.contains ((strSplit key "__").headD "") then
          match value with
          | .vlist l => do
              let ids ← mapE (fun v => propE "id" (gvalAsCfg v)) l
              .ok [⟨false, [(key, .vlist ids)]⟩]
          | _ => .error "TypeError: expected a list of related objects"
        else
          .ok [⟨false, [(key, value)]⟩]
  | fuel + 1, .valueReq model v =>
    (match v with
     | .vdict d => pqRun testing fuel (.entriesReq model d)
     | _ => .error "TypeError: expected a dict of key values")
  | fuel + 1, .entriesReq model l =>
    (match l with
     | [] => .ok []
     | (k, v) :: rest => do
        let a ← pqRun testing fuel (.kwargReq model k v)
        let b ← pqRun testing fuel (.entriesReq model rest)
        .ok (a ++ b))
  | fuel + 1, .valuesReq model l =>
    (match l with
     | [] => .ok []
     | v :: rest => do
        let a ← pqRun testing fuel (.valueReq model v)
        let b ← pqRun testing fuel (.valuesReq model rest)
        .ok (a ++ b))

/-- `process_query_kwarg(model, key, value)`. -/
def process_query_kwarg (testing : Bool) (fuel : Nat) (model : DModel)
    (key : String) (value : GVal) : Except String (List QExpr) :=
  pqRun testing fuel (.kwargReq model key value)

/-- `process_query_value(model, value_dict)`. -/
def process_query_value (testing : Bool) (fuel : Nat) (model : DModel)
    (v : GVal) : Except String (List QExpr) :=
  pqRun testing fuel (.valueReq model v)

/-- `flatten_query_kwargs(model, kwargs)` (lines 1003-1022): one
`process_query_kwarg` per kwarg, flattened, exactly as the entries form
of the query processing recursion. -/
def flatten_query_kwargs (testing : Bool) (fuel : Nat) (model : DModel)
    (kwargs : PyDict) : Except String (List QExpr) :=
  pqRun testing fuel (.entriesReq model kwargs)

/-! ## Filter kwargs (schema_helpers.py lines 1163-1179) -/

/-- The recursion of `R.map_keys_deep` with an explicit depth bound (the
recursion descends only into dict values, so a bound of the size of the
value is always sufficient). -/
def mkdFuel (f : String → GVal → String) : Nat → GVal → GVal
  | 0, v => v
  | fu + 1, .vdict d =>
      .vdict (d.map (fun kv => (f kv.1 kv.2, mkdFuel f fu kv.2)))
  | _ + 1, v => v

/-- `R.map_keys_deep(f, v)`: rewrite every dict key (given its value),
recursing into dict values. -/
def map_keys_deep (f : String → GVal → String) (v : GVal) : GVal :=
  mkdFuel f (ddepth v) v

/-- `R.map_keys_deep` over the entries of a dict. -/
def mkdEntries (f : String → GVal → String) (d : List (String × GVal)) :
    List (String × GVal) :=
  d.map (fun kv => (f kv.1 kv.2, map_keys_deep f kv.2))

/-- The key conversion of `process_filter_kwargs` (lines 1174-1178):
when some `FILTER_FIELDS` key preceded by `_` occurs in the key, replace
every `_` by `__`; otherwise keep the key. -/
def filterKeyConv (testing : Bool) (k : String) : String :=
  if (dictKeys (FILTER_FIELDS testing)).any (fun s => strHasSub k ("_" ++ s)) then
    strReplace k "_" "__"
  else k

/-- `process_filter_kwargs(model, **kwargs)` (lines 1163-1179): convert
the keys, then `flatten_query_kwargs`. -/
def process_filter_kwargs (testing : Bool) (fuel : Nat) (model : DModel)
    (kwargs : PyDict) : Except String (List QExpr) :=
  flatten_query_kwargs testing fuel model
    (mkdEntries (fun k _ => filterKeyConv testing k) kwargs)

/-! ## query_sequentially (schema_helpers.py lines 1199-1227)

The Django manager and querysets are embedded as the free term structure
`QuerySet`: `call q m args` is `getattr(q, m)(*args)` and `distinct q` is
`q.distinct()`, so the theorems speak about exactly which methods are
called with which argument sets. -/

/-- A manager or queryset as the chain of method calls applied to the
manager. -/
inductive QuerySet where
  | mgr : QuerySet
  | call : QuerySet → String → List QExpr → QuerySet
  | distinct : QuerySet → QuerySet
  deriving Repr, DecidableEq

/-- `query_sequentially(manager, manager_method, q_expressions_sets)`:
an empty set list calls the manager method with no arguments; otherwise
fold over the sets, using `manager_method` for every set equal
(`R.equals`) to the last set and `filter` for the others, with
`.distinct()` after each step. -/
def query_sequentially (manager_method : String)
    (q_expressions_sets : List (List QExpr)) : QuerySet :=
  if q_expressions_sets.length = 0 then .call .mgr manager_method []
  else
    let last := q_expressions_sets.getLastD []
    q_expressions_sets.foldl
      (fun manager_or_query q_expressions =>
        .distinct (.call manager_or_query
          (if q_expressions = last then manager_method else "filter")
          q_expressions))
      .mgr

/-- One method-call step observed on a queryset chain. -/
inductive QStep where
  | callStep : String → List QExpr → QStep
  | distinctStep : QStep
  deriving Repr, DecidableEq

/-- The chronological method-call trace of a queryset chain. -/
def qsTrace : QuerySet → List QStep
  | .mgr => []
  | .call q m args => qsTrace q ++ [.callStep m args]
  | .distinct q => qsTrace q ++ [.distinctStep]

/-! ## The Decimal scalar (schema_helpers.py lines 5 and 136-155)

Line 5 binds the module name `Decimal` to the standard library class
`decimal.Decimal`; the class statement on line 136 rebinds that same
module name to the new `Scalar` subclass.  The two classes are unrelated
(one extends `decimal.Decimal`, the other `graphene.Scalar`), so
`isinstance` against one never accepts instances of the other. -/

/-- The Python classes involved in the `Decimal` scalar. -/
inductive PyClass where
  | decimalDecimal : PyClass
  | scalarDecimal : PyClass
  | otherClass : PyClass
  deriving Repr, DecidableEq

/-- A Python object as its class and its `str(...)` rendering. -/
structure PyObj where
  cls : PyClass
  strRepr : String
  deriving Repr, DecidableEq

/-- `isinstance(o, c)` for the classes above: none extends another. -/
def pyIsinstance (o : PyObj) (c : PyClass) : Bool := o.cls = c

/-- The module-level name `Decimal` after line 136 executes: the class
statement shadows the import from line 5. -/
def moduleDecimalName : PyClass := .scalarDecimal

/-- `Decimal.serialize(dec)` (lines 141-146): assert
`isinstance(dec, Decimal)` — where `Decimal` resolves to the module name,
that is the Scalar subclass — then return `str(dec)`. -/
def Decimal.serialize (dec : PyObj) : Except String String :=
  if pyIsinstance dec moduleDecimalName then .ok dec.strRepr
  else .error "AssertionError: Received not compatible Decimal"

/-! ## delete_if_marked_for_delete (schema_helpers.py lines 1050-1072)

The model store is embedded as a list of instances with a safe-delete
flag.  Modelled from the django-safedelete manager semantics the function
relies on (an external dependency): the default manager sees non-deleted
rows, a queryset `delete()` marks its rows deleted, `deleted_only()` sees
deleted rows, and `get` raises unless exactly one row matches.  Django
model instances are always truthy. -/

/-- A stored model instance with the safe-delete flag. -/
structure DbInstance where
  fields : PyDict
  deleted : Bool
  deriving Repr, DecidableEq

/-- The model store (`model_cls.objects` backing rows). -/
abbrev Store := List DbInstance

/-- Django model instances are always truthy, so `if not instance` on a
retrieved instance is never taken. -/
def modelInstanceTruthy (_ : DbInstance) : Bool := true

/-- `delete_if_marked_for_delete(model_cls, grapene_upsert_class,
upsert_field_name, model_data)`: when `model_data` has truthy `id` and
`deleted`, soft-delete the non-deleted rows with that id, retrieve the
row again through `deleted_only().get(id=...)` (raising when that fails),
and return the upsert class instantiated with the retrieved instance
(embedded as the pair of the field name and the instance); otherwise
return `None` and leave the store unchanged. -/
def delete_if_marked_for_delete (store : Store) (upsert_field_name : String)
    (model_data : PyDict) :
    Except String (Option (String × DbInstance)) × Store :=
  if ["id", "deleted"].all
      (fun p => truthy (prop_or (.vbool false) p model_data)) then
    let idv := prop_or .vnone "id" model_data
    let store2 := store.map (fun inst =>
      if ¬ inst.deleted ∧ dictGet "id" inst.fields = some idv then
        { inst with deleted := true }
      else inst)
    match store2.filter
        (fun inst => inst.deleted ∧ dictGet "id" inst.fields = some idv) with
    | [inst] =>
        if ¬ modelInstanceTruthy inst then
          (.error "Failed to delete", store2)
        else
          (.ok (some (upsert_field_name, inst)), store2)
    | _ => (.error "DoesNotExist: deleted_only().get found no unique match",
           store2)
  else
    (.ok none, store)

end RescapeGraphene

namespace RescapeGraphene

/-! # Theorems -/

/-! ## C8 — guess_update_or_create -/

/-- C8: for every fields_dict, `guess_update_or_create` returns `UPDATE`
if and only if the dict contains the key `id`, returns `CREATE`
otherwise, and never returns any other value. -/
theorem C8_guess_update_or_create (fields_dict : PyDict) :
    (guess_update_or_create fields_dict = UPDATE ↔ hasKey "id" fields_dict) ∧
    (guess_update_or_create fields_dict = CREATE ↔
      ¬ hasKey "id" fields_dict) ∧
    (guess_update_or_create fields_dict = UPDATE ∨
      guess_update_or_create fields_dict = CREATE) := by
  unfold guess_update_or_create
  by_cases h : hasKey "id" fields_dict <;>
    simp [h, UPDATE, CREATE]

/-- Witness for C8 at concrete inputs. -/
theorem C8_guess_update_or_create_witness :
    guess_update_or_create [("id", .vint 1)] = UPDATE ∧
    guess_update_or_create [("name", .vstr "n")] = CREATE :=
  ⟨(C8_guess_update_or_create [("id", .vint 1)]).1.mpr (by decide),
   (C8_guess_update_or_create [("name", .vstr "n")]).2.1.mpr (by decide)⟩

/-! ## C9 — the Decimal scalar -/

/-- C9: `Decimal.serialize(dec)` returns `str(dec)` exactly for instances
of the Scalar `Decimal` class defined in the module (which shadows the
`decimal.Decimal` import), raises `AssertionError` for every other input,
and in particular the assertion error branch is reachable for standard
library `decimal.Decimal` values. -/
theorem C9_decimal_serialize (dec : PyObj) :
    (dec.cls = .scalarDecimal → Decimal.serialize dec = .ok dec.strRepr) ∧
    (dec.cls ≠ .scalarDecimal →
      Decimal.serialize dec =
        .error "AssertionError: Received not compatible Decimal") ∧
    (∃ d : PyObj, d.cls = .decimalDecimal ∧
      Decimal.serialize d =
        .error "AssertionError: Received not compatible Decimal") := by
  refine ⟨fun h => ?_, fun h => ?_, ⟨⟨.decimalDecimal, "1.5"⟩, rfl, rfl⟩⟩
  · simp [Decimal.serialize, pyIsinstance, moduleDecimalName, h]
  · simp [Decimal.serialize, pyIsinstance, moduleDecimalName, h]

/-- Witness for C9 at concrete inputs: serializing an instance of the
module Scalar class succeeds; serializing a `decimal.Decimal` instance
hits the assertion. -/
theorem C9_decimal_serialize_witness :
    Decimal.serialize ⟨.scalarDecimal, "1.5"⟩ = .ok "1.5" ∧
    Decimal.serialize ⟨.decimalDecimal, "2.5"⟩ =
      .error "AssertionError: Received not compatible Decimal" :=
  ⟨(C9_decimal_serialize ⟨.scalarDecimal, "1.5"⟩).1 rfl,
   (C9_decimal_serialize ⟨.decimalDecimal, "2.5"⟩).2.1 (by decide)⟩

/-! ## C3 — FILTER_FIELDS -/

/-- C3: for either value of the TESTING setting, `FILTER_FIELDS` holds,
for every suffix of the selected base table, both the suffix and its
`_not` companion mapped to the same configuration value, holds no other
keys, and so has exactly twice as many entries as the base table. -/
theorem C3_FILTER_FIELDS (testing : Bool) :
    (∀ k ∈ dictKeys (filterFieldsBase testing),
      dictGet k (FILTER_FIELDS testing) = dictGet k (filterFieldsBase testing) ∧
      dictGet (k ++ "_not") (FILTER_FIELDS testing) =
        dictGet k (filterFieldsBase testing)) ∧
    dictKeys (FILTER_FIELDS testing) =
      (dictKeys (filterFieldsBase testing)).flatMap (fun k => [k, k ++ "_not"]) ∧
    (FILTER_FIELDS testing).length = 2 * (filterFieldsBase testing).length := by
  set_option maxRecDepth 10000 in
  cases testing <;> decide

/-- Witness for C3 at a concrete suffix of the testing table. -/
theorem C3_FILTER_FIELDS_witness :
    dictGet ("contains" ++ "_not") (FILTER_FIELDS true) =
      dictGet "contains" (filterFieldsBase true) :=
  (((C3_FILTER_FIELDS true).1 "contains") (by decide)).2

/-! ## C10 — query_sequentially -/

/-- The trace of the fold inside `query_sequentially`. -/
theorem qsTrace_foldl (m : String) (last : List QExpr)
    (l : List (List QExpr)) (acc : QuerySet) :
    qsTrace (l.foldl
      (fun q s => .distinct (.call q (if s = last then m else "filter") s))
      acc) =
    qsTrace acc ++ l.flatMap (fun s =>
      [QStep.callStep (if s = last then m else "filter") s,
       QStep.distinctStep]) := by
  induction l generalizing acc with
  | nil => simp
  | cons s rest ih =>
      simp only [List.foldl_cons, ih, qsTrace, List.flatMap_cons,
        List.append_assoc]
      simp

/-- `flatMap` over a list whose members all differ from `last` only takes
the `filter` branch. -/
theorem flatMap_filter_of_ne (m : String) (last : List QExpr)
    (l : List (List QExpr)) (h : ∀ s ∈ l, s ≠ last) :
    l.flatMap (fun s =>
      [QStep.callStep (if s = last then m else "filter") s,
       QStep.distinctStep]) =
    l.flatMap (fun s => [QStep.callStep "filter" s, QStep.distinctStep]) := by
  induction l with
  | nil => simp
  | cons s rest ih =>
      have hs : s ≠ last := h s (by simp)
      simp only [List.flatMap_cons, if_neg hs]
      rw [ih (fun x hx => h x (by simp [hx]))]

/-- C10: with an empty set list, `query_sequentially` calls the manager
method with no arguments; with a non-empty list it folds over the sets,
using `filter` followed by `distinct` for every set different from the
last set and the manager method followed by `distinct` for every set equal
to the last one; hence when no earlier set equals the last set, exactly
the final set is queried with the manager method. -/
theorem C10_query_sequentially (manager_method : String)
    (sets : List (List QExpr)) :
    (sets = [] →
      query_sequentially manager_method sets =
        .call .mgr manager_method []) ∧
    (sets ≠ [] →
      qsTrace (query_sequentially manager_method sets) =
        sets.flatMap (fun s =>
          [QStep.callStep
            (if s = sets.getLastD [] then manager_method else "filter") s,
           QStep.distinctStep])) ∧
    (sets ≠ [] → (∀ s ∈ sets.dropLast, s ≠ sets.getLastD []) →
      qsTrace (query_sequentially manager_method sets) =
        sets.dropLast.flatMap
          (fun s => [QStep.callStep "filter" s, QStep.distinctStep]) ++
        [QStep.callStep manager_method (sets.getLastD []),
         QStep.distinctStep]) := by
  refine ⟨fun h => by simp [query_sequentially, h], fun h => ?_, fun h hne => ?_⟩
  · unfold query_sequentially
    rw [if_neg (by simpa [List.length_eq_zero] using h)]
    exact qsTrace_foldl manager_method (sets.getLastD []) sets .mgr
  · unfold query_sequentially
    rw [if_neg (by simpa [List.length_eq_zero] using h)]
    rw [qsTrace_foldl manager_method (sets.getLastD []) sets .mgr]
    induction sets using List.reverseRecOn with
    | nil => exact absurd rfl h
    | append_singleton xs x _ =>
        rw [List.getLastD_concat] at hne ⊢
        rw [List.dropLast_concat] at hne ⊢
        simp only [List.flatMap_append, qsTrace, List.nil_append]
        rw [flatMap_filter_of_ne manager_method x xs hne]
        simp

/-- Witness for C10 at concrete inputs. -/
theorem C10_query_sequentially_witness :
    query_sequentially "count" ([] : List (List QExpr)) =
      .call .mgr "count" [] ∧
    qsTrace (query_sequentially "count"
        [[⟨false, [("a", .vint 1)]⟩], [⟨false, [("b", .vint 2)]⟩]]) =
      [QStep.callStep "filter" [⟨false, [("a", .vint 1)]⟩],
       QStep.distinctStep,
       QStep.callStep "count" [⟨false, [("b", .vint 2)]⟩],
       QStep.distinctStep] :=
  ⟨(C10_query_sequentially "count" []).1 rfl,
   by
    have := (C10_query_sequentially "count"
      [[⟨false, [("a", .vint 1)]⟩], [⟨false, [("b", .vint 2)]⟩]]).2.2
      (by decide) (by decide)
    simpa using this⟩

/-! ## C4 — process_query_kwarg on keys ending in __not -/

/-- C4 counterexample: for the key `f__not__not`, which ends in `__not`,
Python `key.replace` removes every occurrence of `__not`, so the produced
negated expression uses the key `f`, not `f__not` as the claim
(remove only the suffix, rest unchanged) requires. -/
theorem C4_process_query_kwarg_counterexample :
    process_query_kwarg false 1 (DModel.mk [] []) "f__not__not" (.vint 1) =
      .ok [⟨true, [("f", .vint 1)]⟩] ∧
    process_query_kwarg false 1 (DModel.mk [] []) "f__not__not" (.vint 1) ≠
      .ok [⟨true, [("f__not", .vint 1)]⟩] := by
  constructor
  · rfl
  · intro h
    rw [show process_query_kwarg false 1 (DModel.mk [] []) "f__not__not"
        (.vint 1) = .ok [⟨true, [("f", .vint 1)]⟩] from rfl] at h
    simp only [Except.ok.injEq, List.cons.injEq, QExpr.mk.injEq,
      Prod.mk.injEq, and_true, true_and, List.cons_ne_self] at h
    revert h
    decide

/-- C4 amended: for every model, every fuel bound, and every key ending
in `__not`, `process_query_kwarg` returns the one-element list containing
`~Q(k=value)` where `k` is the key with every occurrence of the substring
`__not` removed (Python `str.replace` semantics). -/
theorem C4_process_query_kwarg_not (testing : Bool) (fuel : Nat)
    (model : DModel) (key : String) (value : GVal) (hf : fuel ≠ 0)
    (h : strEnds key "__not" = true) :
    process_query_kwarg testing fuel model key value =
      .ok [⟨true, [(strReplace key "__not" "", value)]⟩] := by
  obtain ⟨f, rfl⟩ := Nat.exists_eq_succ_of_ne_zero hf
  unfold process_query_kwarg
  simp [pqRun, h]

/-- Witness for the amended C4 at a concrete input. -/
theorem C4_process_query_kwarg_not_witness :
    process_query_kwarg true 1 (DModel.mk [] []) "a__not" (.vstr "x") =
      .ok [⟨true, [("a", .vstr "x")]⟩] := by
  have h := C4_process_query_kwarg_not true 1 (DModel.mk [] []) "a__not"
    (.vstr "x") (by decide) (by decide)
  rw [h]
  rfl

/-! ## C7 — delete_if_marked_for_delete -/

/-- C7: `delete_if_marked_for_delete` deletes only when the model data
has truthy `id` and `deleted` values; lacking either it returns `None`
and leaves the store unchanged; when the deletion is performed, a failed
retrieval from the deleted-only manager raises an exception, and a
successful retrieval returns the upsert class instantiated with the
retrieved instance. -/
theorem C7_delete_if_marked_for_delete (store : Store) (name : String)
    (model_data : PyDict) :
    (¬ (truthy (prop_or (.vbool false) "id" model_data) = true ∧
        truthy (prop_or (.vbool false) "deleted" model_data) = true) →
      delete_if_marked_for_delete store name model_data = (.ok none, store)) ∧
    (∀ inst,
      truthy (prop_or (.vbool false) "id" model_data) = true →
      truthy (prop_or (.vbool false) "deleted" model_data) = true →
      (store.map (fun inst =>
        if ¬ inst.deleted ∧
            dictGet "id" inst.fields = some (prop_or .vnone "id" model_data) then
          { inst with deleted := true }
        else inst)).filter
        (fun inst => inst.deleted ∧
          dictGet "id" inst.fields = some (prop_or .vnone "id" model_data)) =
        [inst] →
      delete_if_marked_for_delete store name model_data =
        (.ok (some (name, inst)),
         store.map (fun inst =>
           if ¬ inst.deleted ∧
               dictGet "id" inst.fields =
                 some (prop_or .vnone "id" model_data) then
             { inst with deleted := true }
           else inst))) ∧
    (truthy (prop_or (.vbool false) "id" model_data) = true →
      truthy (prop_or (.vbool false) "deleted" model_data) = true →
      (∀ inst,
        (store.map (fun inst =>
          if ¬ inst.deleted ∧
              dictGet "id" inst.fields =
                some (prop_or .vnone "id" model_data) then
            { inst with deleted := true }
          else inst)).filter
          (fun inst => inst.deleted ∧
            dictGet "id" inst.fields =
              some (prop_or .vnone "id" model_data)) ≠ [inst]) →
      ∃ e, delete_if_marked_for_delete store name model_data =
        (.error e,
         store.map (fun inst =>
           if ¬ inst.deleted ∧
               dictGet "id" inst.fields =
                 some (prop_or .vnone "id" model_data) then
             { inst with deleted := true }
           else inst))) := by
  refine ⟨fun h => ?_, fun inst h1 h2 hfil => ?_, fun h1 h2 hfil => ?_⟩
  · unfold delete_if_marked_for_delete
    rw [if_neg]
    simpa using h
  · unfold delete_if_marked_for_delete
    rw [if_pos (by simp [h1, h2])]
    dsimp only
    rw [hfil]
    simp [modelInstanceTruthy]
  · unfold delete_if_marked_for_delete
    rw [if_pos (by simp [h1, h2])]
    dsimp only
    split
    · rename_i inst heq
      exact absurd heq (hfil inst)
    · exact ⟨_, rfl⟩

/-- Witness for C7 at concrete inputs: data lacking `deleted` changes
nothing; data with truthy `id` and `deleted` soft-deletes the matching
row and returns the upsert pair. -/
theorem C7_delete_if_marked_for_delete_witness :
    delete_if_marked_for_delete [⟨[("id", .vint 3)], false⟩] "region"
        [("id", .vint 3)] =
      (.ok none, [⟨[("id", .vint 3)], false⟩]) ∧
    delete_if_marked_for_delete [⟨[("id", .vint 3)], false⟩] "region"
        [("id", .vint 3), ("deleted", .vstr "2020-01-01")] =
      (.ok (some ("region", ⟨[("id", .vint 3)], true⟩)),
       [⟨[("id", .vint 3)], true⟩]) := by
  constructor
  · exact (C7_delete_if_marked_for_delete [⟨[("id", .vint 3)], false⟩]
      "region" [("id", .vint 3)]).1 (by decide)
  · have h := (C7_delete_if_marked_for_delete [⟨[("id", .vint 3)], false⟩]
      "region" [("id", .vint 3), ("deleted", .vstr "2020-01-01")]).2.1
      ⟨[("id", .vint 3)], true⟩ (by decide) (by decide) (by decide)
    simpa using h

/-! ## C6 — instantiate_graphene_type -/

/-- Removing one key does not change lookups of other keys. -/
theorem dictGet_omitKeys_ne {k j : String} (h : k ≠ j) (d : PyDict) :
    dictGet k (omitKeys [j] d) = dictGet k d := by
  induction d with
  | nil => rfl
  | cons kv rest ih =>
      by_cases hj : kv.1 = j
      · have hjk : ¬ j = k := fun hh => h hh.symm
        have e1 : omitKeys [j] (kv :: rest) = omitKeys [j] rest := by
          simp [omitKeys, List.filter_cons, hj]
        have e2 : dictGet k (kv :: rest) = dictGet k rest := by
          unfold dictGet
          rw [List.find?_cons_of_neg]
          simp [hj, hjk]
        rw [e1, e2]
        exact ih
      · have e1 : omitKeys [j] (kv :: rest) = kv :: omitKeys [j] rest := by
          simp [omitKeys, List.filter_cons, hj]
        by_cases hk : kv.1 = k
        · unfold dictGet
          rw [e1, List.find?_cons_of_pos, List.find?_cons_of_pos]
          · simp [hk]
          · simp [hk]
        · unfold dictGet
          rw [e1, List.find?_cons_of_neg, List.find?_cons_of_neg]
          · exact ih
          · simp [hk]
          · simp [hk]

/-- `R.prop` is unchanged by removing another key. -/
theorem propE_omitKeys_ne {k j : String} (h : k ≠ j) (d : PyDict) :
    propE k (omitKeys [j] d) = propE k d := by
  unfold propE
  rw [dictGet_omitKeys_ne h]

/-- `R.prop_or` is unchanged by removing another key. -/
theorem prop_or_omitKeys_ne (default : GVal) {k j : String} (h : k ≠ j)
    (d : PyDict) :
    prop_or default k (omitKeys [j] d) = prop_or default k d := by
  unfold prop_or
  rw [dictGet_omitKeys_ne h]

/-- `R.prop_eq_or_in_or` is unchanged by removing another key. -/
theorem prop_eq_or_in_or_omitKeys_ne (default : Bool) (v : GVal)
    {k j : String} (h : k ≠ j) (d : PyDict) :
    prop_eq_or_in_or default k v (omitKeys [j] d) =
      prop_eq_or_in_or default k v d := by
  unfold prop_eq_or_in_or
  rw [dictGet_omitKeys_ne h]

/-- `resolveGrapheneType` only reads `fields` from the config, so it is
unchanged by removing `type`. -/
theorem resolveGrapheneType_omit_type (g : GVal) (cfg : PyDict)
    (crud : String) :
    resolveGrapheneType g (omitKeys ["type"] cfg) crud =
      resolveGrapheneType g cfg crud := by
  unfold resolveGrapheneType
  cases g with
  | vtype n k =>
      cases k <;> simp only []
      rw [propE_omitKeys_ne (by decide)]
  | vfunc n a =>
      cases a <;> simp only []
      rw [propE_omitKeys_ne (by decide)]
  | _ => rfl

/-- An error of `R.prop` carries the key name. -/
theorem propE_error_shape (k : String) (d : PyDict) (e : String)
    (h : propE k d = .error e) : e = "KeyError: " ++ k := by
  unfold propE at h
  rcases hg : dictGet k d with _ | w <;> rw [hg] at h <;> cases h
  rfl

/-- Every error of `input_type_class_name` is a `KeyError`. -/
theorem input_type_class_name_error_shape (cfg : PyDict) (crud : String)
    (e : String) (h : input_type_class_name cfg crud = .error e) :
    e = "KeyError: graphene_type" ∨ e = "KeyError: type" := by
  unfold input_type_class_name at h
  rcases hg : propE "graphene_type" cfg with eg | vg <;> rw [hg] at h
  · simp only [Bind.bind, Except.bind, Except.error.injEq] at h
    subst h
    exact .inl (propE_error_shape _ _ _ hg)
  · simp only [Bind.bind, Except.bind] at h
    by_cases ht : truthy vg = true
    · rw [if_pos ht] at h
      simp [Except.bind, pure, Except.pure] at h
    · rw [if_neg ht] at h
      rcases hg2 : propE "type" cfg with eg2 | vg2 <;> rw [hg2] at h
      · simp only [Bind.bind, Except.bind, Except.error.injEq] at h
        subst h
        exact .inr (propE_error_shape _ _ _ hg2)
      · simp [Except.bind, pure, Except.pure] at h

/-- Every error of `resolveGrapheneType` is a `KeyError`, never the
missing-type message. -/
theorem resolveGrapheneType_error_ne (g : GVal) (cfg : PyDict)
    (crud : String) (e : String)
    (h : resolveGrapheneType g cfg crud = .error e) :
    e ≠ "No graphene_type nor type parameter found on the field value." := by
  cases g with
  | vtype n k =>
      cases k with
      | objectClass =>
          simp only [resolveGrapheneType] at h
          rcases hp : propE "fields" cfg with ep | vp <;> rw [hp] at h
          · simp only [Bind.bind, Except.bind, Except.error.injEq] at h
            subst h
            rw [propE_error_shape _ _ _ hp]
            decide
          · simp only [Bind.bind, Except.bind] at h
            rcases hn : input_type_class_name
                [("graphene_type", .vtype n .objectClass), ("fields", vp)]
                crud with en | vn <;> rw [hn] at h
            · simp only [Except.error.injEq] at h
              subst h
              rcases input_type_class_name_error_shape _ _ _ hn with h1 | h1 <;>
                rw [h1] <;> decide
            · simp [pure, Except.pure] at h
      | scalarClass => simp [resolveGrapheneType, pure, Except.pure] at h
      | otherClass => simp [resolveGrapheneType, pure, Except.pure] at h
  | vfunc n a =>
      cases a with
      | zero =>
          simp only [resolveGrapheneType] at h
          rcases hp : propE "fields" cfg with ep | vp <;> rw [hp] at h
          · simp only [Bind.bind, Except.bind, Except.error.injEq] at h
            subst h
            rw [propE_error_shape _ _ _ hp]
            decide
          · simp only [Bind.bind, Except.bind] at h
            rcases hn : input_type_class_name
                [("graphene_type", .vtype ("LazyResultOf " ++ n) .otherClass),
                 ("fields", call_if_lambda vp)] crud with en | vn <;>
              rw [hn] at h
            · simp only [Except.error.injEq] at h
              subst h
              rcases input_type_class_name_error_shape _ _ _ hn with h1 | h1 <;>
                rw [h1] <;> decide
            · simp [pure, Except.pure] at h
      | succ a2 => simp [resolveGrapheneType, pure, Except.pure] at h
  | vnone => simp [resolveGrapheneType, pure, Except.pure] at h
  | vbool b => simp [resolveGrapheneType, pure, Except.pure] at h
  | vint i => simp [resolveGrapheneType, pure, Except.pure] at h
  | vstr st => simp [resolveGrapheneType, pure, Except.pure] at h
  | vlist l => simp [resolveGrapheneType, pure, Except.pure] at h
  | vdict d => simp [resolveGrapheneType, pure, Except.pure] at h
  | vinst a b c => simp [resolveGrapheneType, pure, Except.pure] at h

/-- C6 counterexample: the config with a falsy `graphene_type` entry
(`False`) and a truthy `type` entry still raises the missing-type
exception, because `R.prop_or` falls back to `type` only when the
`graphene_type` key is absent, so the claimed "no exception whenever at
least one of the two is present" is false. -/
theorem C6_instantiate_graphene_type_counterexample :
    instantiate_graphene_type
        [("graphene_type", .vbool false), ("type", .vtype "String" .scalarClass)]
        CREATE =
      .error "No graphene_type nor type parameter found on the field value." ∧
    dictGet "type"
        [("graphene_type", .vbool false),
         ("type", .vtype "String" .scalarClass)] =
      some (.vtype "String" .scalarClass) ∧
    truthy (.vtype "String" .scalarClass) = true := by
  refine ⟨?_, by decide, by decide⟩
  rfl

/-- C6 amended: `instantiate_graphene_type` raises the missing-type
exception if and only if the selected type — the `graphene_type` entry
when that key is present, else the `type` entry when present, else `None`
— is falsy; and when the `graphene_type` key is present the `type` entry
is ignored entirely (for any crud name other than the literal string
`type`), which is the sense in which `graphene_type` takes precedence. -/
theorem C6_instantiate_graphene_type (field_config : PyDict) (crud : String) :
    (¬ truthy (prop_or (prop_or .vnone "type" field_config) "graphene_type"
        field_config) = true →
      instantiate_graphene_type field_config crud =
        .error "No graphene_type nor type parameter found on the field value.") ∧
    (truthy (prop_or (prop_or .vnone "type" field_config) "graphene_type"
        field_config) = true →
      instantiate_graphene_type field_config crud ≠
        .error "No graphene_type nor type parameter found on the field value.") ∧
    (hasKey "graphene_type" field_config = true → crud ≠ "type" →
      instantiate_graphene_type field_config crud =
        instantiate_graphene_type (omitKeys ["type"] field_config) crud) := by
  refine ⟨fun h => ?_, fun h => ?_, fun hk hc => ?_⟩
  · unfold instantiate_graphene_type
    dsimp only
    rw [if_pos h]
  · unfold instantiate_graphene_type
    dsimp only
    rw [if_neg (by simp [h])]
    rcases hr : resolveGrapheneType
        (prop_or (prop_or .vnone "type" field_config) "graphene_type"
          field_config) field_config crud with e | v
    · simp only [Bind.bind, Except.bind]
      intro hh
      rw [Except.error.injEq] at hh
      exact resolveGrapheneType_error_ne _ _ _ _ hr hh
    · simp only [Bind.bind, Except.bind]
      by_cases hm : truthy (prop_or .vnone "type_modifier" field_config) = true
      · rw [if_pos hm]
        simp
      · rw [if_neg hm]
        simp
  · have hg : ∃ g, dictGet "graphene_type" field_config = some g := by
      unfold hasKey dictHas at hk
      exact Option.isSome_iff_exists.mp hk
    obtain ⟨g, hg⟩ := hg
    have hsel : prop_or (prop_or .vnone "type" (omitKeys ["type"] field_config))
        "graphene_type" (omitKeys ["type"] field_config) =
        prop_or (prop_or .vnone "type" field_config) "graphene_type"
          field_config := by
      unfold prop_or
      rw [dictGet_omitKeys_ne (by decide), hg]
      simp
    unfold instantiate_graphene_type
    dsimp only
    rw [hsel,
      resolveGrapheneType_omit_type,
      prop_or_omitKeys_ne GVal.vnone
        (show ("type_modifier" : String) ≠ "type" by decide),
      prop_eq_or_in_or_omitKeys_ne false (GVal.vstr REQUIRE) hc]

/-- Witness for the amended C6 at concrete inputs: an empty config raises
the missing-type exception; with a `graphene_type` key present the `type`
entry is ignored. -/
theorem C6_instantiate_graphene_type_witness :
    instantiate_graphene_type [] CREATE =
      .error "No graphene_type nor type parameter found on the field value." ∧
    instantiate_graphene_type
        [("graphene_type", .vtype "Int" .scalarClass),
         ("type", .vtype "String" .scalarClass)] CREATE =
      instantiate_graphene_type
        (omitKeys ["type"]
          [("graphene_type", .vtype "Int" .scalarClass),
           ("type", .vtype "String" .scalarClass)]) CREATE :=
  ⟨(C6_instantiate_graphene_type [] CREATE).1 (by decide),
   (C6_instantiate_graphene_type
      [("graphene_type", .vtype "Int" .scalarClass),
       ("type", .vtype "String" .scalarClass)] CREATE).2.2 (by decide)
      (by decide)⟩

/-! ## C5 — process_filter_kwargs -/

/-- C5 counterexample: for the kwarg `a_b_contains`, the code replaces
every underscore (`'a__b__contains'`), not only the separator before the
filter suffix (`'a_b__contains'`) as the claim states. -/
theorem C5_process_filter_kwargs_counterexample :
    process_filter_kwargs true 3 (DModel.mk [] []) [("a_b_contains", .vstr "x")] =
      .ok [⟨false, [("a__b__contains", .vstr "x")]⟩] ∧
    process_filter_kwargs true 3 (DModel.mk [] []) [("a_b_contains", .vstr "x")] ≠
      .ok [⟨false, [("a_b__contains", .vstr "x")]⟩] := by
  constructor
  · rfl
  · intro h
    rw [show process_filter_kwargs true 3 (DModel.mk [] [])
        [("a_b_contains", .vstr "x")] =
        .ok [⟨false, [("a__b__contains", .vstr "x")]⟩] from rfl] at h
    simp only [Except.ok.injEq, List.cons.injEq, QExpr.mk.injEq,
      Prod.mk.injEq, and_true, true_and] at h
    revert h
    decide

/-- A value that is not a dict is unchanged by `map_keys_deep`. -/
theorem map_keys_deep_nondict (f : String → GVal → String) (v : GVal)
    (h : ∀ d, v ≠ .vdict d) : map_keys_deep f v = v := by
  cases v with
  | vdict d => exact absurd rfl (h d)
  | _ => rfl

/-- On a dict with no dict values, `map_keys_deep` only rewrites the
top-level keys. -/
theorem mkdEntries_flat (f : String → GVal → String) :
    ∀ l : PyDict, (∀ kv ∈ l, ∀ d, kv.2 ≠ GVal.vdict d) →
      mkdEntries f l = l.map (fun kv => (f kv.1 kv.2, kv.2))
  | [], _ => rfl
  | kv :: rest, h => by
      unfold mkdEntries
      simp only [List.map_cons, List.cons.injEq]
      constructor
      · rw [map_keys_deep_nondict _ _ (h kv (by simp))]
      · have ihr := mkdEntries_flat f rest (fun kv2 h2 => h kv2 (by simp [h2]))
        unfold mkdEntries at ihr
        exact ihr

/-- C5 amended: `process_filter_kwargs` replaces, in every key in which
some `FILTER_FIELDS` suffix preceded by a single underscore occurs, EVERY
underscore by a double underscore (not only the separator before the
suffix), leaves keys without such an occurrence unchanged, and returns
`flatten_query_kwargs` of the converted kwargs; for a single flat kwarg
whose converted key matches no model field, the result is the one
`Q(converted_key=value)` expression. -/
theorem C5_process_filter_kwargs (testing : Bool) (fuel : Nat)
    (model : DModel) (kwargs : PyDict) :
    ((∀ kv ∈ kwargs, ∀ d, kv.2 ≠ GVal.vdict d) →
      process_filter_kwargs testing fuel model kwargs =
        flatten_query_kwargs testing fuel model
          (kwargs.map (fun kv =>
            (if (dictKeys (FILTER_FIELDS testing)).any
                (fun s => strHasSub kv.1 ("_" ++ s)) then
              strReplace kv.1 "_" "__"
            else kv.1, kv.2)))) ∧
    (∀ k v f2, fuel = f2 + 2 → (∀ d, v ≠ GVal.vdict d) →
      (strEnds (filterKeyConv testing k) "__not" = false) →
      model.forwardGet (filterKeyConv testing k) = none →
      model.relatedNames.contains
        ((strSplit (filterKeyConv testing k) "__").headD "") = false →
      process_filter_kwargs testing fuel model [(k, v)] =
        .ok [⟨false, [(filterKeyConv testing k, v)]⟩]) := by
  constructor
  · intro hflat
    unfold process_filter_kwargs
    rw [mkdEntries_flat _ _ hflat]
    rfl
  · intro k v f2 hf hv hnot hfwd hrel
    subst hf
    unfold process_filter_kwargs
    have he : mkdEntries (fun k _ => filterKeyConv testing k) [(k, v)] =
        [(filterKeyConv testing k, v)] := by
      rw [mkdEntries_flat _ _ (by simpa using hv)]
      rfl
    rw [he]
    unfold flatten_query_kwargs
    simp only [pqRun, Bind.bind, Except.bind, hnot, hfwd, hrel,
      Bool.false_eq_true, if_false]
    simp

/-- Witness for the amended C5 at a concrete input. -/
theorem C5_process_filter_kwargs_witness :
    process_filter_kwargs true 3 (DModel.mk [] []) [("a_b_contains", .vstr "x")] =
      .ok [⟨false, [("a__b__contains", .vstr "x")]⟩] := by
  have h := (C5_process_filter_kwargs true 3 (DModel.mk [] [])
    [("a_b_contains", .vstr "x")]).2 "a_b_contains" (.vstr "x") 1 rfl
    (fun d => by simp) (by decide) rfl rfl
  rw [h]
  rfl

/-! ## C1 — DENY fields are omitted -/

/-- A key is absent from a dict exactly when it is not among the keys. -/
theorem dictGet_eq_none_iff (k : String) (d : PyDict) :
    dictGet k d = none ↔ k ∉ dictKeys d := by
  unfold dictGet dictKeys
  rw [Option.map_eq_none', List.find?_eq_none]
  constructor
  · intro h hmem
    rw [List.mem_map] at hmem
    obtain ⟨y, hy, hyk⟩ := hmem
    exact absurd (by simpa using hyk) (by simpa using h y hy)
  · intro h y hy
    simp only [decide_eq_true_eq]
    intro hyk
    exact h (List.mem_map.mpr ⟨y, hy, hyk⟩)

/-- `map_dictE` keeps the keys when it succeeds. -/
theorem map_dictE_keys (f : GVal → Except String GVal) :
    ∀ d d2, map_dictE f d = .ok d2 → dictKeys d2 = dictKeys d
  | [], d2, h => by
      unfold map_dictE at h
      rw [Except.ok.injEq] at h
      rw [← h]
  | (k, v) :: rest, d2, h => by
      unfold map_dictE at h
      rcases hf : f v with e | w <;> rw [hf] at h
      · simp [Except.bind, Bind.bind] at h
      · rcases hr : map_dictE f rest with e2 | w2 <;> rw [hr] at h
        · simp [Except.bind, Bind.bind] at h
        · simp only [Except.bind, Bind.bind, pure, Except.pure,
            Except.ok.injEq] at h
          rw [← h]
          have ihr := map_dictE_keys f rest w2 hr
          simp only [dictKeys, List.map_cons] at *
          rw [ihr]

/-- Filtering out the unique entry of a key makes the key absent. -/
theorem dictGet_filter_none (p : String × GVal → Bool) (field : String) :
    ∀ d : PyDict, (dictKeys d).Nodup → ∀ v, dictGet field d = some v →
      p (field, v) = false → dictGet field (filter_dict p d) = none
  | [], _, v, hv, _ => by cases hv
  | kv :: rest, hnd, v, hv, hp => by
      have hnd2 : (dictKeys rest).Nodup := by
        simpa [dictKeys] using hnd.of_cons
      by_cases hk : kv.1 = field
      · have hvv : kv.2 = v := by
          unfold dictGet at hv
          rw [List.find?_cons_of_pos _ (by simp [hk])] at hv
          simpa using hv
        have hkv : kv = (field, v) := by
          cases kv
          simp only at hk hvv
          rw [hk, hvv]
        have hdrop : filter_dict p (kv :: rest) = filter_dict p rest := by
          unfold filter_dict
          rw [List.filter_cons, hkv, hp]
          simp
        rw [hdrop]
        rw [dictGet_eq_none_iff]
        intro hmem
        have hnotin : field ∉ dictKeys rest := by
          have h4 : kv.1 ∉ dictKeys rest := by
            have h5 := hnd
            simp only [dictKeys, List.map_cons, List.nodup_cons] at h5
            exact h5.1
          rw [hk] at h4
          exact h4
        have hsub : dictKeys (filter_dict p rest) ⊆ dictKeys rest := by
          unfold dictKeys filter_dict
          intro x hx
          simp only [List.mem_map] at hx ⊢
          obtain ⟨y, hy, hxy⟩ := hx
          exact ⟨y, List.mem_of_mem_filter hy, hxy⟩
        exact hnotin (hsub hmem)
      · have hv2 : dictGet field rest = some v := by
          unfold dictGet at hv ⊢
          rwa [List.find?_cons_of_neg _ (by simp [hk])] at hv
        have ihr := dictGet_filter_none p field rest hnd2 v hv2 hp
        unfold filter_dict at ihr ⊢
        rw [List.filter_cons]
        by_cases hpk : p kv = true
        · rw [if_pos hpk]
          unfold dictGet at ihr ⊢
          rwa [List.find?_cons_of_neg _ (by simp [hk])]
        · rw [if_neg hpk]
          exact ihr

/-- The keys of `dictInsert` are among the old keys and the new key. -/
theorem dictKeys_dictInsert_subset (d : PyDict) (k : String) (v : GVal) :
    ∀ x ∈ dictKeys (dictInsert d k v), x ∈ dictKeys d ∨ x = k := by
  intro x hx
  unfold dictInsert at hx
  by_cases hh : dictHas k d = true
  · rw [if_pos hh] at hx
    unfold dictKeys at hx ⊢
    simp only [List.map_map, List.mem_map] at hx ⊢
    obtain ⟨y, hy, hxy⟩ := hx
    by_cases hyk : y.1 = k
    · right
      rw [← hxy]
      simp [hyk]
    · left
      refine ⟨y, hy, ?_⟩
      rw [← hxy]
      simp [hyk]
  · rw [if_neg hh] at hx
    unfold dictKeys at hx ⊢
    simp only [List.map_append, List.mem_append, List.map_cons,
      List.map_nil, List.mem_singleton] at hx
    rcases hx with hx | hx
    · exact .inl hx
    · simpa using .inr hx

/-- The keys of a `merge` are among the keys of the two dicts. -/
theorem dictKeys_merge_subset (d2 : PyDict) :
    ∀ d1, ∀ x ∈ dictKeys (merge d1 d2), x ∈ dictKeys d1 ∨ x ∈ dictKeys d2 := by
  induction d2 with
  | nil => intro d1 x hx; exact .inl hx
  | cons kv rest ih =>
      intro d1 x hx
      unfold merge at hx ih
      rw [List.foldl_cons] at hx
      rcases ih (dictInsert d1 kv.1 kv.2) x hx with h1 | h1
      · rcases dictKeys_dictInsert_subset d1 kv.1 kv.2 x h1 with h2 | h2
        · exact .inl h2
        · right
          simp [dictKeys, h2]
      · right
        simp [dictKeys] at h1 ⊢
        exact .inr h1

/-- The keys of `from_pairs` are among the pair keys. -/
theorem dictKeys_from_pairs_subset (l : List (String × GVal)) :
    ∀ x ∈ dictKeys (from_pairs l), x ∈ l.map (·.1) := by
  intro x hx
  have : from_pairs l = merge [] l := rfl
  rw [this] at hx
  rcases dictKeys_merge_subset l [] x hx with h | h
  · cases h
  · exact h

/-- The keys of `merge_all` are among the keys of the merged dicts. -/
theorem dictKeys_merge_all_subset :
    ∀ ds : List PyDict, ∀ x ∈ dictKeys (merge_all ds),
      ∃ d ∈ ds, x ∈ dictKeys d := by
  have main : ∀ (ds : List PyDict) (acc : PyDict),
      ∀ x ∈ dictKeys (ds.foldl merge acc),
        x ∈ dictKeys acc ∨ ∃ d ∈ ds, x ∈ dictKeys d := by
    intro ds
    induction ds with
    | nil => intro acc x hx; exact .inl hx
    | cons d rest ih =>
        intro acc x hx
        rw [List.foldl_cons] at hx
        rcases ih (merge acc d) x hx with h1 | h1
        · rcases dictKeys_merge_subset d acc x h1 with h2 | h2
          · exact .inl h2
          · exact .inr ⟨d, by simp, h2⟩
        · obtain ⟨d2, hd2, hxd2⟩ := h1
          exact .inr ⟨d2, by simp [hd2], hxd2⟩
  intro ds x hx
  rcases main ds [] x hx with h | h
  · cases h
  · exact h

/-- The keys produced by `allowed_filter_pairs` are all of the form
`field_name ++ "_" ++ suffix` with the suffix a `FILTER_FIELDS` key. -/
theorem allowed_filter_pairs_keys (testing : Bool) (field_name : String)
    (graphene_type : GVal) :
    ∀ x ∈ (allowed_filter_pairs testing field_name graphene_type).map (·.1),
      ∃ sfx ∈ dictKeys (FILTER_FIELDS testing), x = field_name ++ "_" ++ sfx := by
  intro x hx
  unfold allowed_filter_pairs at hx
  simp only [List.map_map, List.mem_map] at hx
  obtain ⟨y, hy, hxy⟩ := hx
  refine ⟨y.1, ?_, by rw [← hxy]; rfl⟩
  unfold filter_dict at hy
  unfold dictKeys
  simp only [List.mem_map]
  exact ⟨y, List.mem_of_mem_filter hy, rfl⟩

/-- The keys of `add_filters` are the argument keys and suffixed filter
names built from them. -/
theorem dictKeys_add_filters_subset (testing : Bool) (d : PyDict) :
    ∀ x ∈ dictKeys (add_filters testing d),
      x ∈ dictKeys d ∨ ∃ g ∈ dictKeys d, ∃ sfx ∈ dictKeys (FILTER_FIELDS testing),
        x = g ++ "_" ++ sfx := by
  intro x hx
  unfold add_filters at hx
  obtain ⟨md, hmd, hxmd⟩ := dictKeys_merge_all_subset _ x hx
  simp only [List.mem_map, to_pairs] at hmd
  obtain ⟨pair, hpair, hpmd⟩ := hmd
  rw [← hpmd] at hxmd
  unfold make_filters at hxmd
  have := dictKeys_from_pairs_subset _ x hxmd
  simp only [List.map_append, List.mem_append, List.map_cons, List.map_nil,
    List.mem_singleton] at this
  rcases this with h | h
  · left
    unfold dictKeys
    simp only [List.mem_map]
    exact ⟨pair, hpair, h.symm⟩
  · obtain ⟨sfx, hsfx, hx2⟩ := allowed_filter_pairs_keys testing pair.1
      (classOfV pair.2) x h
    right
    refine ⟨pair.1, ?_, sfx, hsfx, hx2⟩
    unfold dictKeys
    simp only [List.mem_map]
    exact ⟨pair, hpair, rfl⟩

/-- The keys of a filtered dict are among the original keys. -/
theorem dictKeys_filter_subset (p : String × GVal → Bool) (d : PyDict) :
    dictKeys (filter_dict p d) ⊆ dictKeys d := by
  unfold dictKeys filter_dict
  intro x hx
  simp only [List.mem_map] at hx ⊢
  obtain ⟨y, hy, hxy⟩ := hx
  exact ⟨y, List.mem_of_mem_filter hy, hxy⟩

/-- C1: a field whose config marks a crud operation DENY is omitted:
`input_type_fields` omits a field whose config maps the crud key to
`DENY`, and `allowed_read_fields` and `allowed_filter_arguments` omit
every field whose `read` entry is or contains `DENY` (for the filter
arguments, provided the field name does not collide with a generated
`<other-field>_<suffix>` filter name). -/
theorem C1_deny_fields_omitted (testing : Bool) (fields_dict : PyDict)
    (crud field : String) (cfg : PyDict)
    (hnodup : (dictKeys fields_dict).Nodup)
    (hfield : dictGet field fields_dict = some (.vdict cfg)) :
    (crud ≠ "" → dictGet crud cfg = some (.vstr DENY) →
      ∀ d, input_type_fields fields_dict crud = .ok d →
        dictGet field d = none) ∧
    ((dictGet "read" cfg = some (.vstr DENY) ∨
        ∃ l, dictGet "read" cfg = some (.vlist l) ∧ GVal.vstr DENY ∈ l) →
      (∀ d, allowed_read_fields fields_dict = .ok d →
        dictGet field d = none) ∧
      (∀ d, allowed_filter_arguments testing fields_dict = .ok d →
        (∀ g ∈ dictKeys fields_dict, ∀ sfx ∈ dictKeys (FILTER_FIELDS testing),
          field ≠ g ++ "_" ++ sfx) →
        dictGet field d = none)) := by
  constructor
  · intro hcrud hdeny d hok
    unfold input_type_fields at hok
    dsimp only at hok
    rw [if_neg hcrud] at hok
    have hfn := dictGet_filter_none
      (fun key_value => ¬ prop_eq_orV false crud (.vstr DENY) key_value.2)
      field fields_dict hnodup _ hfield
      (by simp [prop_eq_orV, prop_eq_or, hdeny])
    have hkeys := map_dictE_keys _ _ _ hok
    rw [dictGet_eq_none_iff] at hfn ⊢
    rw [hkeys]
    exact hfn
  · intro hread
    have hfn := dictGet_filter_none
      (fun key_value => ¬ prop_eq_or_inV READ (.vstr DENY) key_value.2)
      field fields_dict hnodup _ hfield
      (by
        rcases hread with h | ⟨l, hl, hmem⟩
        · simp [prop_eq_or_inV, prop_eq_or_in, READ, h]
        · simp [prop_eq_or_inV, prop_eq_or_in, READ, hl, containsV]
          exact hmem)
    constructor
    · intro d hok
      unfold allowed_read_fields at hok
      have hkeys := map_dictE_keys _ _ _ hok
      rw [dictGet_eq_none_iff] at hfn ⊢
      rw [hkeys]
      exact hfn
    · intro d hok hcollide
      unfold allowed_filter_arguments at hok
      rcases hres : map_dictE resolve_type
          (filter_dict
            (fun key_value =>
              ¬ prop_eq_or_inV READ (.vstr DENY) key_value.2)
            fields_dict) with e | resolved <;> rw [hres] at hok
      · simp [Except.bind, Bind.bind] at hok
      · simp only [Except.bind, Bind.bind, Except.ok.injEq] at hok
        rw [dictGet_eq_none_iff, ← hok]
        intro hmem
        have hkeysres := map_dictE_keys _ _ _ hres
        rcases dictKeys_add_filters_subset testing resolved field hmem
          with h1 | ⟨g, hg, sfx, hsfx, hfx⟩
        · rw [hkeysres] at h1
          rw [dictGet_eq_none_iff] at hfn
          exact hfn h1
        · rw [hkeysres] at hg
          exact hcollide g (dictKeys_filter_subset _ _ hg) sfx hsfx hfx

/-- Witness for C1 at a concrete fields_dict whose `id` field denies
both `create` and `read`. -/
theorem C1_deny_fields_omitted_witness :
    dictGet "id"
      [("name", GVal.vinst "String" .scalarClass "optional")] = none ∧
    dictGet "id" [("name", GVal.vinst "String" .scalarClass "")] = none ∧
    dictGet "id"
      [("name", GVal.vinst "String" .scalarClass ""),
       ("name_contains", GVal.vinst "String" .scalarClass ""),
       ("name_contains_not", GVal.vinst "String" .scalarClass ""),
       ("name_icontains", GVal.vinst "String" .scalarClass ""),
       ("name_icontains_not", GVal.vinst "String" .scalarClass ""),
       ("name_in", GVal.vinst "graphene_list_of" .otherClass "String"),
       ("name_in_not", GVal.vinst "graphene_list_of" .otherClass "String")] =
      none := by
  have hbase := C1_deny_fields_omitted true
    [("id", .vdict [("type", .vtype "Int" .scalarClass),
        ("create", .vstr "deny"), ("read", .vstr "deny")]),
     ("name", .vdict [("type", .vtype "String" .scalarClass)])]
    "create" "id"
    [("type", .vtype "Int" .scalarClass), ("create", .vstr "deny"),
     ("read", .vstr "deny")]
    (by decide) (by decide)
  refine ⟨hbase.1 (by decide) (by decide) _ rfl, ?_, ?_⟩
  · exact (hbase.2 (.inl (by decide))).1 _ rfl
  · exact (hbase.2 (.inl (by decide))).2 _ rfl (by decide)

/-! ## C2 — input_type_parameters_for_update_or_create -/

/-- Lookup distributes over append, preferring the left dict. -/
theorem dictGet_append (k : String) (d1 d2 : PyDict) :
    dictGet k (d1 ++ d2) =
      match dictGet k d1 with
      | some v => some v
      | none => dictGet k d2 := by
  induction d1 with
  | nil => simp [dictGet]
  | cons kv rest ih =>
      by_cases hk : kv.1 = k
      · simp [dictGet, List.find?_cons_of_pos, hk]
      · unfold dictGet at *
        rw [List.cons_append, List.find?_cons_of_neg _ (by simp [hk]),
          List.find?_cons_of_neg _ (by simp [hk])]
        exact ih

/-- `dictHas` is false exactly on absent keys. -/
theorem dictHas_eq_false_iff (k : String) (d : PyDict) :
    dictHas k d = false ↔ k ∉ dictKeys d := by
  unfold dictHas
  rw [← dictGet_eq_none_iff]
  cases dictGet k d <;> simp

/-- Merging a fresh single-entry dict appends it. -/
theorem mergeDictsDeep_fresh (acc : PyDict) (k : String) (v : GVal)
    (h : k ∉ dictKeys acc) :
    mergeDictsDeep acc [(k, v)] = acc ++ [(k, v)] := by
  unfold mergeDictsDeep mergeEntryDeep
  simp only [List.foldl_cons, List.foldl_nil]
  rw [if_neg (by simp [(dictHas_eq_false_iff k acc).mpr h])]

/-- Deep merge of a fresh single entry into a dict value appends it. -/
theorem merge_deep_fresh (D : PyDict) (k : String) (v : GVal)
    (h : k ∉ dictKeys D) :
    merge_deep (.vdict D) (.vdict [(k, v)]) = .vdict (D ++ [(k, v)]) := by
  unfold merge_deep ddepth
  rw [mergeDeepFuel]
  simp only [List.foldl_cons, List.foldl_nil]
  rw [if_neg (by simp [(dictHas_eq_false_iff k D).mpr h])]

/-- Replacing inside a dict after lookup of another key. -/
theorem dictGet_map_replace (acc : PyDict) (k j : String) (f : GVal → GVal)
    (hkj : k ≠ j) :
    dictGet k (acc.map (fun kv0 => if kv0.1 = j then (kv0.1, f kv0.2) else kv0)) =
      dictGet k acc := by
  induction acc with
  | nil => rfl
  | cons kv rest ih =>
      rw [List.map_cons]
      have hhead : (if kv.1 = j then (kv.1, f kv.2) else kv).1 = kv.1 := by
        by_cases hj : kv.1 = j <;> simp [hj]
      by_cases hk : kv.1 = k
      · have hj : ¬ kv.1 = j := fun hh => hkj (by rw [← hk, hh])
        rw [if_neg hj]
        unfold dictGet
        rw [List.find?_cons_of_pos _ (by simp [hk]),
          List.find?_cons_of_pos _ (by simp [hk])]
      · unfold dictGet at ih ⊢
        rw [List.find?_cons_of_neg _ (by simp [hhead, hk]),
          List.find?_cons_of_neg _ (by simp [hk])]
        exact ih

/-- Replacing the value at a present key changes exactly that lookup. -/
theorem dictGet_map_replace_self (acc : PyDict) (j : String) (f : GVal → GVal)
    (hnd : (dictKeys acc).Nodup) (v : GVal) (hv : dictGet j acc = some v) :
    dictGet j (acc.map (fun kv0 => if kv0.1 = j then (kv0.1, f kv0.2) else kv0)) =
      some (f v) := by
  induction acc with
  | nil => cases hv
  | cons kv rest ih =>
      rw [List.map_cons]
      by_cases hk : kv.1 = j
      · have hval : kv.2 = v := by
          unfold dictGet at hv
          rw [List.find?_cons_of_pos _ (by simp [hk])] at hv
          simpa using hv
        rw [if_pos hk]
        unfold dictGet
        rw [List.find?_cons_of_pos _ (by simp [hk])]
        simp [hval]
      · have hnd2 : (dictKeys rest).Nodup := by
          simpa [dictKeys] using hnd.of_cons
        have hv2 : dictGet j rest = some v := by
          unfold dictGet at hv ⊢
          rwa [List.find?_cons_of_neg _ (by simp [hk])] at hv
        rw [if_neg hk]
        unfold dictGet at ih ⊢
        rw [List.find?_cons_of_neg _ (by simp [hk])]
        exact ih hnd2 hv2

/-- The keys after a value replacement are unchanged. -/
theorem dictKeys_map_replace (acc : PyDict) (j : String) (f : GVal → GVal) :
    dictKeys (acc.map (fun kv0 => if kv0.1 = j then (kv0.1, f kv0.2) else kv0)) =
      dictKeys acc := by
  unfold dictKeys
  rw [List.map_map]
  congr 1
  funext kv0
  by_cases hj : kv0.1 = j <;> simp [hj]

/-- Merging a single defaults entry into a dict with a defaults key
deep-merges into the existing defaults dict. -/
theorem mergeDictsDeep_defaults_present (acc : PyDict) (x : GVal)
    (D : PyDict)
    (hD : dictGet "defaults" acc = some (.vdict D)) :
    mergeDictsDeep acc [("defaults", x)] =
      acc.map (fun kv0 =>
        if kv0.1 = "defaults" then (kv0.1, merge_deep kv0.2 x) else kv0) := by
  unfold mergeDictsDeep mergeEntryDeep
  simp only [List.foldl_cons, List.foldl_nil]
  rw [if_pos]
  unfold dictHas
  rw [hD]
  rfl

/-- Merging a defaults entry into a dict without one appends it. -/
theorem mergeDictsDeep_defaults_absent (acc : PyDict) (x : GVal)
    (hD : dictGet "defaults" acc = none) :
    mergeDictsDeep acc [("defaults", x)] = acc ++ [("defaults", x)] := by
  unfold mergeDictsDeep mergeEntryDeep
  simp only [List.foldl_cons, List.foldl_nil]
  rw [if_neg]
  unfold dictHas
  rw [hD]
  simp

set_option maxHeartbeats 1000000 in
/-- Characterization of `merge_deep_all` over the per-field dicts built
by `key_value_based_on_unique_or_foreign`: tagged pairs `(unique?, pair)`
fold into a dict carrying the unique pairs at top level and the other
pairs accumulated in order under `defaults`. -/
theorem mergeDeepAll_tagged :
    ∀ (tagged : List (Bool × (String × GVal))) (acc defAcc : PyDict),
    (dictKeys acc).Nodup →
    dictGet "defaults" acc =
      (if defAcc.isEmpty then none else some (.vdict defAcc)) →
    (∀ q ∈ tagged, q.2.1 ≠ "defaults") →
    (tagged.map (fun q => q.2.1)).Nodup →
    (defAcc.map (·.1)).Nodup →
    (∀ x ∈ tagged.map (fun q => q.2.1), x ∉ defAcc.map (·.1)) →
    (∀ q ∈ tagged, q.2.1 ∉ dictKeys acc) →
    (∀ q ∈ tagged, q.1 = true →
      dictGet q.2.1
        ((tagged.map (fun q =>
          if q.1 then [q.2] else [("defaults", GVal.vdict [q.2])])).foldl
            mergeDictsDeep acc) = some q.2.2) ∧
    (∀ k, k ≠ "defaults" → k ∉ tagged.map (fun q => q.2.1) →
      dictGet k
        ((tagged.map (fun q =>
          if q.1 then [q.2] else [("defaults", GVal.vdict [q.2])])).foldl
            mergeDictsDeep acc) = dictGet k acc) ∧
    dictGet "defaults"
        ((tagged.map (fun q =>
          if q.1 then [q.2] else [("defaults", GVal.vdict [q.2])])).foldl
            mergeDictsDeep acc) =
      (if (defAcc ++ (tagged.filter (fun q => !q.1)).map (·.2)).isEmpty then
        none
       else some (.vdict (defAcc ++ (tagged.filter (fun q => !q.1)).map (·.2)))) ∧
    (∀ x ∈ dictKeys
        ((tagged.map (fun q =>
          if q.1 then [q.2] else [("defaults", GVal.vdict [q.2])])).foldl
            mergeDictsDeep acc),
      x ∈ dictKeys acc ∨ x ∈ tagged.map (fun q => q.2.1) ∨ x = "defaults") ∧
    (dictKeys
        ((tagged.map (fun q =>
          if q.1 then [q.2] else [("defaults", GVal.vdict [q.2])])).foldl
            mergeDictsDeep acc)).Nodup
  | [], acc, defAcc, hndA, hdef, _, _, _, _, _ => by
      refine ⟨by simp, fun k _ _ => by simp, ?_, fun x hx => .inl hx, hndA⟩
      simpa using hdef
  | q :: rest, acc, defAcc, hndA, hdef, hd, hN1, hN2, hN3, hfresh => by
      have hqd : q.2.1 ≠ "defaults" := hd q (by simp)
      have hqacc : q.2.1 ∉ dictKeys acc := hfresh q (by simp)
      have hN1t : (rest.map (fun q => q.2.1)).Nodup := by
        simpa using hN1.of_cons
      have hqrest : q.2.1 ∉ rest.map (fun q => q.2.1) := by
        have h5 := hN1
        simp only [List.map_cons, List.nodup_cons] at h5
        exact h5.1
      have hqnotdef : q.2.1 ∉ defAcc.map (·.1) := hN3 q.2.1 (by simp)
      by_cases hq : q.1 = true
      · -- unique item: append the pair to the accumulator
        have hstep : mergeDictsDeep acc
            (if q.1 then [q.2] else [("defaults", GVal.vdict [q.2])]) =
            acc ++ [q.2] := by
          rw [if_pos hq]
          exact mergeDictsDeep_fresh acc q.2.1 q.2.2 hqacc
        have hkeysA : dictKeys (acc ++ [q.2]) = dictKeys acc ++ [q.2.1] := by
          simp [dictKeys]
        have hndA2 : (dictKeys (acc ++ [q.2])).Nodup := by
          rw [hkeysA, List.nodup_append]
          refine ⟨hndA, List.nodup_singleton _, ?_⟩
          intro a ha hb
          rw [List.mem_singleton] at hb
          exact hqacc (hb ▸ ha)
        have hgetq : dictGet q.2.1 (acc ++ [q.2]) = some q.2.2 := by
          rw [dictGet_append, (dictGet_eq_none_iff _ _).mpr hqacc]
          unfold dictGet
          rw [List.find?_cons_of_pos _ (by simp)]
          rfl
        have hgetother : ∀ k, k ≠ q.2.1 →
            dictGet k (acc ++ [q.2]) = dictGet k acc := by
          intro k hk
          rw [dictGet_append]
          rcases hcc : dictGet k acc with _ | w
          · unfold dictGet
            rw [List.find?_cons_of_neg _ (by simp [Ne.symm hk])]
            rfl
          · rfl
        have hdef2 : dictGet "defaults" (acc ++ [q.2]) =
            (if defAcc.isEmpty then none else some (.vdict defAcc)) := by
          rw [hgetother "defaults" (Ne.symm hqd)]
          exact hdef
        have hfresh2 : ∀ q2 ∈ rest, q2.2.1 ∉ dictKeys (acc ++ [q.2]) := by
          intro q2 hq2
          rw [hkeysA]
          simp only [List.mem_append, List.mem_singleton]
          rintro (h1 | h1)
          · exact hfresh q2 (by simp [hq2]) h1
          · exact hqrest (h1 ▸ List.mem_map_of_mem (fun q => q.2.1) hq2)
        obtain ⟨ih1, ih2, ih3, ih4, ih5⟩ := mergeDeepAll_tagged rest
          (acc ++ [q.2]) defAcc hndA2 hdef2
          (fun q2 hq2 => hd q2 (by simp [hq2])) hN1t hN2
          (fun x hx => hN3 x (List.mem_cons.mpr (.inr hx))) hfresh2
        simp only [List.map_cons, List.foldl_cons, hstep]
        refine ⟨?_, ?_, ?_, ?_, ih5⟩
        · intro q2 hq2 hq2u
          rcases List.mem_cons.mp hq2 with rfl | hq2r
          · rw [ih2 q2.2.1 hqd hqrest]
            exact hgetq
          · exact ih1 q2 hq2r hq2u
        · intro k hk hkmem
          simp only [List.map_cons, List.mem_cons, not_or] at hkmem
          rw [ih2 k hk hkmem.2]
          exact hgetother k hkmem.1
        · have hfq : List.filter (fun q => !q.1) (q :: rest) =
              List.filter (fun q => !q.1) rest := by
            rw [List.filter_cons]
            simp [hq]
          rw [ih3, hfq]
        · intro x hx
          rcases ih4 x hx with h1 | h1 | h1
          · rw [hkeysA] at h1
            rcases List.mem_append.mp h1 with h2 | h2
            · exact .inl h2
            · rw [List.mem_singleton] at h2
              exact .inr (.inl (by simp [h2]))
          · exact .inr (.inl (List.mem_cons.mpr (.inr h1)))
          · exact .inr (.inr h1)
      · -- non-unique item: merged under the defaults key
        have hqfalse : q.1 = false := by
          cases hq2 : q.1
          · rfl
          · exact absurd hq2 hq
        by_cases hde : defAcc.isEmpty = true
        · -- no defaults key yet: append one
          have hdefnone : dictGet "defaults" acc = none := by
            rw [hdef, if_pos hde]
          have hstep : mergeDictsDeep acc
              (if q.1 then [q.2] else [("defaults", GVal.vdict [q.2])]) =
              acc ++ [("defaults", GVal.vdict [q.2])] := by
            rw [if_neg (by simp [hqfalse])]
            exact mergeDictsDeep_defaults_absent acc (GVal.vdict [q.2]) hdefnone
          have hkeysA : dictKeys (acc ++ [("defaults", GVal.vdict [q.2])]) =
              dictKeys acc ++ ["defaults"] := by
            simp [dictKeys]
          have hdefacc : "defaults" ∉ dictKeys acc := by
            rw [← dictGet_eq_none_iff]
            exact hdefnone
          have hndA2 : (dictKeys (acc ++ [("defaults", GVal.vdict [q.2])])).Nodup := by
            rw [hkeysA, List.nodup_append]
            refine ⟨hndA, List.nodup_singleton _, ?_⟩
            intro a ha hb
            rw [List.mem_singleton] at hb
            exact hdefacc (hb ▸ ha)
          have hgetother : ∀ k, k ≠ "defaults" →
              dictGet k (acc ++ [("defaults", GVal.vdict [q.2])]) =
                dictGet k acc := by
            intro k hk
            rw [dictGet_append]
            rcases hcc : dictGet k acc with _ | w
            · unfold dictGet
              rw [List.find?_cons_of_neg _ (by simp [Ne.symm hk])]
              rfl
            · rfl
          have hdef2 : dictGet "defaults"
              (acc ++ [("defaults", GVal.vdict [q.2])]) =
              (if ([q.2] : PyDict).isEmpty then none
               else some (.vdict [q.2])) := by
            rw [dictGet_append, hdefnone]
            unfold dictGet
            rw [List.find?_cons_of_pos _ (by simp)]
            simp
          have hfresh2 : ∀ q2 ∈ rest,
              q2.2.1 ∉ dictKeys (acc ++ [("defaults", GVal.vdict [q.2])]) := by
            intro q2 hq2
            rw [hkeysA]
            simp only [List.mem_append, List.mem_singleton]
            rintro (h1 | h1)
            · exact hfresh q2 (by simp [hq2]) h1
            · exact hd q2 (by simp [hq2]) h1
          obtain ⟨ih1, ih2, ih3, ih4, ih5⟩ := mergeDeepAll_tagged rest
            (acc ++ [("defaults", GVal.vdict [q.2])]) [q.2] hndA2 hdef2
            (fun q2 hq2 => hd q2 (by simp [hq2])) hN1t
            (by simp)
            (fun x hx => by
              simp only [List.map_cons, List.map_nil, List.mem_singleton]
              intro hxq
              rw [hxq] at hx
              exact hqrest hx)
            hfresh2
          simp only [List.map_cons, List.foldl_cons, hstep]
          refine ⟨?_, ?_, ?_, ?_, ih5⟩
          · intro q2 hq2 hq2u
            rcases List.mem_cons.mp hq2 with rfl | hq2r
            · rw [hqfalse] at hq2u
              cases hq2u
            · exact ih1 q2 hq2r hq2u
          · intro k hk hkmem
            simp only [List.map_cons, List.mem_cons, not_or] at hkmem
            rw [ih2 k hk hkmem.2]
            exact hgetother k hk
          · have hfq : List.filter (fun q => !q.1) (q :: rest) =
                q :: List.filter (fun q => !q.1) rest := by
              rw [List.filter_cons]
              simp [hqfalse]
            have hda : defAcc = [] := by
              cases defAcc
              · rfl
              · cases hde
            rw [ih3, hfq, hda]
            simp
          · intro x hx
            rcases ih4 x hx with h1 | h1 | h1
            · rw [hkeysA] at h1
              rcases List.mem_append.mp h1 with h2 | h2
              · exact .inl h2
              · rw [List.mem_singleton] at h2
                exact .inr (.inr h2)
            · exact .inr (.inl (List.mem_cons.mpr (.inr h1)))
            · exact .inr (.inr h1)
        · -- defaults key present: deep-merge the pair into it
          have hdefsome : dictGet "defaults" acc = some (.vdict defAcc) := by
            rw [hdef, if_neg hde]
          have hstep : mergeDictsDeep acc
              (if q.1 then [q.2] else [("defaults", GVal.vdict [q.2])]) =
              acc.map (fun kv0 =>
                if kv0.1 = "defaults" then
                  (kv0.1, merge_deep kv0.2 (GVal.vdict [q.2]))
                else kv0) := by
            rw [if_neg (by simp [hqfalse])]
            exact mergeDictsDeep_defaults_present acc (GVal.vdict [q.2])
              defAcc hdefsome
          have hkeysA : dictKeys (acc.map (fun kv0 =>
              if kv0.1 = "defaults" then
                (kv0.1, merge_deep kv0.2 (GVal.vdict [q.2]))
              else kv0)) = dictKeys acc :=
            dictKeys_map_replace acc "defaults"
              (fun w => merge_deep w (GVal.vdict [q.2]))
          have hndA2 : (dictKeys (acc.map (fun kv0 =>
              if kv0.1 = "defaults" then
                (kv0.1, merge_deep kv0.2 (GVal.vdict [q.2]))
              else kv0))).Nodup := by
            rw [hkeysA]
            exact hndA
          have hgetother : ∀ k, k ≠ "defaults" →
              dictGet k (acc.map (fun kv0 =>
                if kv0.1 = "defaults" then
                  (kv0.1, merge_deep kv0.2 (GVal.vdict [q.2]))
                else kv0)) = dictGet k acc :=
            fun k hk => dictGet_map_replace acc k "defaults"
              (fun w => merge_deep w (GVal.vdict [q.2])) hk
          have hdef2 : dictGet "defaults" (acc.map (fun kv0 =>
              if kv0.1 = "defaults" then
                (kv0.1, merge_deep kv0.2 (GVal.vdict [q.2]))
              else kv0)) =
              (if (defAcc ++ [q.2]).isEmpty then none
               else some (.vdict (defAcc ++ [q.2]))) := by
            rw [dictGet_map_replace_self acc "defaults"
              (fun w => merge_deep w (GVal.vdict [q.2])) hndA _ hdefsome]
            rw [merge_deep_fresh defAcc q.2.1 q.2.2 (by
              unfold dictKeys
              exact hqnotdef)]
            simp
          have hfresh2 : ∀ q2 ∈ rest, q2.2.1 ∉ dictKeys (acc.map (fun kv0 =>
              if kv0.1 = "defaults" then
                (kv0.1, merge_deep kv0.2 (GVal.vdict [q.2]))
              else kv0)) := by
            intro q2 hq2
            rw [hkeysA]
            exact hfresh q2 (by simp [hq2])
          have hN2a : ((defAcc ++ [q.2]).map (·.1)).Nodup := by
            rw [List.map_append, List.nodup_append]
            refine ⟨hN2, by simp, ?_⟩
            intro a ha hb
            simp only [List.map_cons, List.map_nil, List.mem_singleton] at hb
            exact hqnotdef (hb ▸ ha)
          have hN3a : ∀ x ∈ rest.map (fun q => q.2.1),
              x ∉ (defAcc ++ [q.2]).map (·.1) := by
            intro x hx
            rw [List.map_append, List.mem_append]
            rintro (h1 | h1)
            · exact hN3 x (List.mem_cons.mpr (.inr hx)) h1
            · simp only [List.map_cons, List.map_nil,
                List.mem_singleton] at h1
              exact hqrest (h1 ▸ hx)
          obtain ⟨ih1, ih2, ih3, ih4, ih5⟩ := mergeDeepAll_tagged rest
            (acc.map (fun kv0 =>
              if kv0.1 = "defaults" then
                (kv0.1, merge_deep kv0.2 (GVal.vdict [q.2]))
              else kv0))
            (defAcc ++ [q.2]) hndA2 hdef2
            (fun q2 hq2 => hd q2 (by simp [hq2])) hN1t hN2a hN3a hfresh2
          simp only [List.map_cons, List.foldl_cons, hstep]
          refine ⟨?_, ?_, ?_, ?_, ih5⟩
          · intro q2 hq2 hq2u
            rcases List.mem_cons.mp hq2 with rfl | hq2r
            · rw [hqfalse] at hq2u
              cases hq2u
            · exact ih1 q2 hq2r hq2u
          · intro k hk hkmem
            simp only [List.map_cons, List.mem_cons, not_or] at hkmem
            rw [ih2 k hk hkmem.2]
            exact hgetother k hk
          · have hfq : List.filter (fun q => !q.1) (q :: rest) =
                q :: List.filter (fun q => !q.1) rest := by
              rw [List.filter_cons]
              simp [hqfalse]
            rw [ih3, hfq]
            simp [List.append_assoc]
          · intro x hx
            rcases ih4 x hx with h1 | h1 | h1
            · rw [hkeysA] at h1
              exact .inl h1
            · exact .inr (.inl (List.mem_cons.mpr (.inr h1)))
            · exact .inr (.inr h1)

/-- The django conversion of a related object (claim wording check):
truthy `django_type` turns `key={id: v}` into `key_id=v`. -/
theorem related_object_django (fields_dict : PyDict) (k : String) (v : GVal)
    (cfg : GVal) (hc : dictGet k fields_dict = some cfg)
    (ht : truthy (prop_or .vnone "django_type" (gvalAsCfg cfg)) = true)
    (idv : GVal) (hid : dictGet "id" (gvalAsCfg v) = some idv) :
    related_object_id_if_django_type fields_dict k v = .ok [(k ++ "_id", idv)] := by
  unfold related_object_id_if_django_type propE
  rw [hc]
  simp only [Bind.bind, Except.bind]
  rw [if_pos ht, hid]

/-- A field without a truthy `django_type` keeps its pair. -/
theorem related_object_plain (fields_dict : PyDict) (k : String) (v : GVal)
    (cfg : GVal) (hc : dictGet k fields_dict = some cfg)
    (ht : truthy (prop_or .vnone "django_type" (gvalAsCfg cfg)) = false) :
    related_object_id_if_django_type fields_dict k v = .ok [(k, v)] := by
  unfold related_object_id_if_django_type propE
  rw [hc]
  simp only [Bind.bind, Except.bind]
  rw [if_neg (by simp [ht])]

/-- `map_with_obj` of the conversion produces the dict of
`(key, {modified pair})` entries. -/
theorem map_with_objE_mods (fields_dict : PyDict) :
    ∀ (l : PyDict) (mods : List (String × GVal)),
      l.length = mods.length →
      (∀ pr ∈ l.zip mods,
        related_object_id_if_django_type fields_dict pr.1.1 pr.1.2 =
          .ok [pr.2]) →
      map_with_objE (fun key value => do
        let d ← related_object_id_if_django_type fields_dict key value
        pure (GVal.vdict d)) l =
        .ok (List.zipWith (fun (kv : String × GVal) p =>
          (kv.1, GVal.vdict [p])) l mods)
  | [], [], _, _ => rfl
  | [], _ :: _, hlen, _ => by simp at hlen
  | _ :: _, [], hlen, _ => by simp at hlen
  | (k, v) :: l, p :: mods, hlen, h => by
      have hhead : related_object_id_if_django_type fields_dict k v =
          .ok [p] := h ((k, v), p) (by rw [List.zip_cons_cons]; simp)
      have ih := map_with_objE_mods fields_dict l mods (by simpa using hlen)
        (fun pr hpr =>
          h pr (by rw [List.zip_cons_cons]; exact List.mem_cons.mpr (.inr hpr)))
      unfold map_with_objE
      simp only [Bind.bind, Except.bind] at ih ⊢
      rw [hhead, ih]
      rfl

/-- Looking any key of the zipped key-to-modified-pair dict up yields the
corresponding singleton modified dict. -/
theorem zip_dict_lookup :
    ∀ (l : PyDict) (mods : List (String × GVal)),
      (l.map (·.1)).Nodup →
      ∀ pr ∈ l.zip mods,
        dictGet pr.1.1 (List.zipWith
          (fun (kv : String × GVal) (p : String × GVal) =>
            (kv.1, GVal.vdict [p])) l mods) = some (.vdict [pr.2])
  | [], _, _, pr, hpr => by simp at hpr
  | _ :: _, [], _, pr, hpr => by simp at hpr
  | kv :: l, p :: mods, hnd, pr, hpr => by
      rw [List.zip_cons_cons] at hpr
      rw [List.zipWith_cons_cons]
      rcases List.mem_cons.mp hpr with rfl | hpr2
      · unfold dictGet
        rw [List.find?_cons_of_pos _ (by simp)]
        rfl
      · have hmem : pr.1 ∈ l := (List.of_mem_zip hpr2).1
        have h5 := hnd
        simp only [List.map_cons, List.nodup_cons] at h5
        have hk : pr.1.1 ≠ kv.1 := by
          intro hh
          exact h5.1 (hh ▸ List.mem_map_of_mem (·.1) hmem)
        have ih := zip_dict_lookup l mods h5.2 pr hpr2
        unfold dictGet at ih ⊢
        rw [List.find?_cons_of_neg _ (by simp [Ne.symm hk])]
        exact ih

/-- `mapE` of `key_value_based_on_unique_or_foreign` wraps each modified
pair bare or under `defaults` according to the `unique` test. -/
theorem kvu_mapE (ktm fields_dict : PyDict) :
    ∀ (l : PyDict) (mods : List (String × GVal)),
      l.length = mods.length →
      (∀ pr ∈ l.zip mods, dictGet pr.1.1 ktm = some (.vdict [pr.2])) →
      mapE (fun kv : String × GVal =>
        key_value_based_on_unique_or_foreign ktm fields_dict kv.1) l =
        .ok (List.zipWith (fun (kv : String × GVal) (p : String × GVal) =>
          if containsV (.vstr UNIQUE)
              (item_path_or (.vlist [.vnone]) [kv.1, "unique"]
                (.vdict fields_dict)) then
            GVal.vdict [p]
          else GVal.vdict [("defaults", GVal.vdict [p])]) l mods)
  | [], [], _, _ => rfl
  | [], _ :: _, hlen, _ => by simp at hlen
  | _ :: _, [], hlen, _ => by simp at hlen
  | kv :: l, p :: mods, hlen, h => by
      have hhead : dictGet kv.1 ktm = some (.vdict [p]) :=
        h (kv, p) (by rw [List.zip_cons_cons]; simp)
      have ih := kvu_mapE ktm fields_dict l mods (by simpa using hlen)
        (fun pr hpr =>
          h pr (by rw [List.zip_cons_cons]; exact List.mem_cons.mpr (.inr hpr)))
      have hkv : key_value_based_on_unique_or_foreign ktm fields_dict kv.1 =
          .ok (if containsV (.vstr UNIQUE)
              (item_path_or (.vlist [.vnone]) [kv.1, "unique"]
                (.vdict fields_dict)) then
            GVal.vdict [p]
          else GVal.vdict [("defaults", GVal.vdict [p])]) := by
        unfold key_value_based_on_unique_or_foreign propE
        rw [hhead]
        simp only [Bind.bind, Except.bind]
        by_cases hc : containsV (.vstr UNIQUE)
            (item_path_or (.vlist [.vnone]) [kv.1, "unique"]
              (.vdict fields_dict)) = true
        · rw [if_pos hc, if_pos hc]
        · rw [if_neg hc, if_neg hc]
      unfold mapE
      simp only [Bind.bind, Except.bind] at ih ⊢
      rw [hkv, ih, List.zipWith_cons_cons]

/-- The values of the zipped key-to-modified-pair dict are the singleton
modified dicts. -/
theorem zip_values :
    ∀ (l : PyDict) (mods : List (String × GVal)), l.length = mods.length →
    (dictValues (List.zipWith (fun (kv : String × GVal) (p : String × GVal) =>
      (kv.1, GVal.vdict [p])) l mods)).map gvalAsCfg =
      mods.map (fun p => [p])
  | [], [], _ => rfl
  | [], _ :: _, hlen => by simp at hlen
  | _ :: _, [], hlen => by simp at hlen
  | kv :: l, p :: mods, hlen => by
      have ih := zip_values l mods (by simpa using hlen)
      rw [List.zipWith_cons_cons]
      unfold dictValues at ih ⊢
      simp only [List.map_cons]
      rw [ih]
      rfl

/-- Folding `merge` over singleton dicts with globally distinct keys
concatenates them onto the accumulator. -/
theorem foldl_merge_singletons :
    ∀ (mods : List (String × GVal)) (acc : PyDict),
      (acc.map (·.1) ++ mods.map (·.1)).Nodup →
      (mods.map (fun p => [p])).foldl merge acc = acc ++ mods
  | [], acc, _ => by simp
  | p :: mods, acc, hnd => by
      simp only [List.map_cons, List.foldl_cons]
      have hdisj := (List.nodup_append.mp hnd).2.2
      have hmem : p.1 ∉ acc.map (·.1) := by
        intro hh
        exact hdisj hh (by simp)
      have hmerge : merge acc [p] = acc ++ [p] := by
        unfold merge dictInsert
        simp only [List.foldl_cons, List.foldl_nil]
        rw [if_neg (by simp [(dictHas_eq_false_iff p.1 acc).mpr
          (by simpa [dictKeys] using hmem)])]
      rw [hmerge, foldl_merge_singletons mods (acc ++ [p]) (by simpa using hnd)]
      simp

/-- `merge_all` of singleton dicts with distinct keys is their list. -/
theorem merge_all_singletons (mods : List (String × GVal))
    (hnd : (mods.map (·.1)).Nodup) :
    merge_all (mods.map (fun p => [p])) = mods := by
  unfold merge_all
  rw [foldl_merge_singletons mods [] (by simpa using hnd)]
  simp

/-- Omitting an absent key leaves the dict unchanged. -/
theorem omitKeys_absent (k : String) (d : PyDict) (h : k ∉ dictKeys d) :
    omitKeys [k] d = d := by
  unfold omitKeys
  rw [List.filter_eq_self]
  intro kv hkv
  simp only [dictKeys] at h
  have : kv.1 ≠ k := by
    intro hh
    exact h (hh ▸ List.mem_map_of_mem (·.1) hkv)
  simp [this]

/-- A successful lookup puts the key among the keys. -/
theorem dictGet_some_mem {k : String} {d : PyDict} {v : GVal}
    (h : dictGet k d = some v) : k ∈ dictKeys d := by
  by_contra hk
  rw [(dictGet_eq_none_iff _ _).mpr hk] at h
  cases h

/-- A list holding two distinct elements has length at least two. -/
theorem two_le_length_of_two_mem {α : Type} {x y : α} :
    ∀ {l : List α}, x ∈ l → y ∈ l → x ≠ y → 2 ≤ l.length
  | [], hx, _, _ => by cases hx
  | [a], hx, hy, hxy => by
      rw [List.mem_singleton] at hx hy
      exact absurd (hx.trans hy.symm) hxy
  | _ :: _ :: _, _, _, _ => by simp [List.length]

/-- Folding deep merge over pure-`defaults` singleton wrappers accumulates
the pairs in order under the single `defaults` key. -/
theorem mergeDeepAll_defaults_only :
    ∀ (ps : List (String × GVal)) (defAcc : PyDict),
      (defAcc.map (·.1) ++ ps.map (·.1)).Nodup →
      (ps.map (fun p => [("defaults", GVal.vdict [p])])).foldl
        mergeDictsDeep [("defaults", GVal.vdict defAcc)] =
        [("defaults", GVal.vdict (defAcc ++ ps))]
  | [], defAcc, _ => by simp
  | p :: ps, defAcc, hnd => by
      simp only [List.map_cons, List.foldl_cons]
      have hdisj := (List.nodup_append.mp hnd).2.2
      have hmem : p.1 ∉ defAcc.map (·.1) := by
        intro hh
        exact hdisj hh (by simp)
      have hstep : mergeDictsDeep [("defaults", GVal.vdict defAcc)]
          [("defaults", GVal.vdict [p])] =
          [("defaults", GVal.vdict (defAcc ++ [p]))] := by
        unfold mergeDictsDeep mergeEntryDeep
        simp only [List.foldl_cons, List.foldl_nil]
        rw [if_pos (by simp [dictHas, dictGet])]
        simp only [List.map_cons, List.map_nil, if_pos rfl]
        rw [merge_deep_fresh defAcc p.1 p.2 (by simpa [dictKeys] using hmem)]
        simp
      rw [hstep,
        mergeDeepAll_defaults_only ps (defAcc ++ [p]) (by simpa using hnd)]
      simp

/-- The second components of the tagged zip are the modified pairs. -/
theorem zip_tag_snd {g : (String × GVal) → Bool} :
    ∀ (l : PyDict) (mods : List (String × GVal)), l.length = mods.length →
    (List.zipWith (fun (kv : String × GVal) (p : String × GVal) =>
      (g kv, p)) l mods).map (·.2) = mods
  | [], [], _ => rfl
  | [], _ :: _, hlen => by simp at hlen
  | _ :: _, [], hlen => by simp at hlen
  | kv :: l, p :: mods, hlen => by
      rw [List.zipWith_cons_cons, List.map_cons,
        zip_tag_snd l mods (by simpa using hlen)]

/-- The keys carried by the tagged zip are the modified keys. -/
theorem zip_tag_keys {g : (String × GVal) → Bool} :
    ∀ (l : PyDict) (mods : List (String × GVal)), l.length = mods.length →
    (List.zipWith (fun (kv : String × GVal) (p : String × GVal) =>
      (g kv, p)) l mods).map (fun q => q.2.1) = mods.map (·.1)
  | [], [], _ => rfl
  | [], _ :: _, hlen => by simp at hlen
  | _ :: _, [], hlen => by simp at hlen
  | kv :: l, p :: mods, hlen => by
      rw [List.zipWith_cons_cons, List.map_cons, List.map_cons,
        zip_tag_keys l mods (by simpa using hlen)]

/-- The per-field dicts built by `key_value_based_on_unique_or_foreign`
are the tagged wrappers of the modified pairs. -/
theorem zip_items_map (fields_dict : PyDict) :
    ∀ (l : PyDict) (mods : List (String × GVal)),
    (List.zipWith (fun (kv : String × GVal) (p : String × GVal) =>
      if containsV (.vstr UNIQUE)
          (item_path_or (.vlist [.vnone]) [kv.1, "unique"]
            (.vdict fields_dict)) then
        GVal.vdict [p]
      else GVal.vdict [("defaults", GVal.vdict [p])]) l mods).map gvalAsCfg =
    (List.zipWith (fun (kv : String × GVal) (p : String × GVal) =>
      (containsV (.vstr UNIQUE)
        (item_path_or (.vlist [.vnone]) [kv.1, "unique"]
          (.vdict fields_dict)), p)) l mods).map
      (fun q => if q.1 then [q.2] else [("defaults", GVal.vdict [q.2])])
  | [], mods => by cases mods <;> rfl
  | kv :: l, [] => rfl
  | kv :: l, p :: mods => by
      rw [List.zipWith_cons_cons, List.zipWith_cons_cons, List.map_cons,
        List.map_cons, zip_items_map fields_dict l mods]
      by_cases hc : containsV (.vstr UNIQUE)
          (item_path_or (.vlist [.vnone]) [kv.1, "unique"]
            (.vdict fields_dict)) = true
      · rw [if_pos hc]
        simp [gvalAsCfg, hc]
      · rw [if_neg hc]
        simp [gvalAsCfg, hc]

/-- With an `id` key present, the result is the id at top level and all
converted fields merged under `defaults`. -/
theorem itp_with_id (fields_dict fnv : PyDict) (mods : List (String × GVal))
    (hlen : (omitKeys ["id"] fnv).length = mods.length)
    (hrel : ∀ pr ∈ (omitKeys ["id"] fnv).zip mods,
      related_object_id_if_django_type fields_dict pr.1.1 pr.1.2 =
        .ok [pr.2])
    (hndM : (mods.map (·.1)).Nodup)
    (idv : GVal) (hid : dictGet "id" fnv = some idv) :
    input_type_parameters_for_update_or_create fields_dict fnv =
      .ok (.vdict [("id", idv), ("defaults", .vdict mods)]) := by
  have hktm := map_with_objE_mods fields_dict (omitKeys ["id"] fnv) mods
    hlen hrel
  have hhas : hasKey "id" fnv = true := by simp [hasKey, dictHas, hid]
  have hidp : propE "id" fnv = .ok idv := by unfold propE; rw [hid]
  have hdef : merge_all ((dictValues (List.zipWith
      (fun (kv : String × GVal) (p : String × GVal) =>
        (kv.1, GVal.vdict [p])) (omitKeys ["id"] fnv) mods)).map
      gvalAsCfg) = mods := by
    rw [zip_values (omitKeys ["id"] fnv) mods hlen,
      merge_all_singletons mods hndM]
  unfold input_type_parameters_for_update_or_create
  rw [hktm]
  simp only [Bind.bind, Except.bind, hhas, if_true, hidp, hdef]

/-- Without an `id` key, the function builds the deep merge of the tagged
per-field dicts and collapses a single-key result to its `defaults`. -/
theorem itp_no_id (fields_dict fnv : PyDict) (mods : List (String × GVal))
    (hlen : fnv.length = mods.length)
    (hrel : ∀ pr ∈ fnv.zip mods,
      related_object_id_if_django_type fields_dict pr.1.1 pr.1.2 =
        .ok [pr.2])
    (hndF : (fnv.map (·.1)).Nodup)
    (hid : dictGet "id" fnv = none)
    (D : PyDict)
    (hD : D = merge_deep_all ((List.zipWith
      (fun (kv : String × GVal) (p : String × GVal) =>
        (containsV (.vstr UNIQUE)
          (item_path_or (.vlist [.vnone]) [kv.1, "unique"]
            (.vdict fields_dict)), p)) fnv mods).map
      (fun q => if q.1 then [q.2] else [("defaults", GVal.vdict [q.2])]))) :
    input_type_parameters_for_update_or_create fields_dict fnv =
      if (dictKeys D).length = 1 then propE "defaults" D
      else .ok (.vdict D) := by
  have homit : omitKeys ["id"] fnv = fnv :=
    omitKeys_absent "id" fnv ((dictGet_eq_none_iff _ _).mp hid)
  have hktm := map_with_objE_mods fields_dict (omitKeys ["id"] fnv) mods
    (by rw [homit]; exact hlen) (by rw [homit]; exact hrel)
  rw [homit] at hktm
  have hhas : hasKey "id" fnv = false := by simp [hasKey, dictHas, hid]
  have hitems := kvu_mapE (List.zipWith
      (fun (kv : String × GVal) (p : String × GVal) =>
        (kv.1, GVal.vdict [p])) fnv mods) fields_dict fnv mods hlen
    (zip_dict_lookup fnv mods hndF)
  unfold input_type_parameters_for_update_or_create
  rw [homit, hktm]
  simp only [Bind.bind, Except.bind, hhas, Bool.false_eq_true, if_false,
    hitems, zip_items_map fields_dict fnv mods]
  rw [← hD]

set_option maxHeartbeats 1000000 in
/-- C2: `input_type_parameters_for_update_or_create` on converted field
values `mods`: a truthy `django_type` converts `key={id: v}` to
`key_id=v`; with an `id` key the result is the id at top level and every
other converted field merged under `defaults`; without an `id`, fields
marked `unique` in `fields_dict` sit at top level, the others under
`defaults` in order, and a single-key result collapses to its `defaults`
dict. -/
theorem C2_input_type_parameters (fields_dict fnv : PyDict)
    (mods : List (String × GVal))
    (hlen : (omitKeys ["id"] fnv).length = mods.length)
    (hrel : ∀ pr ∈ (omitKeys ["id"] fnv).zip mods,
      related_object_id_if_django_type fields_dict pr.1.1 pr.1.2 =
        .ok [pr.2])
    (hndF : (fnv.map (·.1)).Nodup)
    (hndM : (mods.map (·.1)).Nodup)
    (hdefM : ∀ p ∈ mods, p.1 ≠ "defaults") :
    (∀ k v cfg idv, dictGet k fields_dict = some cfg →
      truthy (prop_or .vnone "django_type" (gvalAsCfg cfg)) = true →
      dictGet "id" (gvalAsCfg v) = some idv →
      related_object_id_if_django_type fields_dict k v =
        .ok [(k ++ "_id", idv)]) ∧
    (∀ idv, dictGet "id" fnv = some idv →
      input_type_parameters_for_update_or_create fields_dict fnv =
        .ok (.vdict [("id", idv), ("defaults", .vdict mods)])) ∧
    (dictGet "id" fnv = none →
      ∀ tagged, tagged = List.zipWith
          (fun (kv : String × GVal) (p : String × GVal) =>
            (containsV (.vstr UNIQUE)
              (item_path_or (.vlist [.vnone]) [kv.1, "unique"]
                (.vdict fields_dict)), p)) fnv mods →
      (tagged.filter (fun q => q.1) = [] → mods ≠ [] →
        input_type_parameters_for_update_or_create fields_dict fnv =
          .ok (.vdict mods)) ∧
      (tagged.filter (fun q => q.1) ≠ [] →
       ((tagged.filter (fun q => !q.1)).map (·.2) ≠ [] ∨
         2 ≤ (tagged.filter (fun q => q.1)).length) →
       ∃ ti, input_type_parameters_for_update_or_create fields_dict fnv =
           .ok (.vdict ti) ∧
         (∀ q ∈ tagged, q.1 = true → dictGet q.2.1 ti = some q.2.2) ∧
         (dictGet "defaults" ti =
           some (.vdict ((tagged.filter (fun q => !q.1)).map (·.2))) ∨
           ((tagged.filter (fun q => !q.1)).map (·.2) = [] ∧
             dictGet "defaults" ti = none)) ∧
         (∀ x ∈ dictKeys ti,
           x ∈ tagged.map (fun q => q.2.1) ∨ x = "defaults"))) := by
  refine ⟨fun k v cfg idv hc ht hid =>
    related_object_django fields_dict k v cfg hc ht idv hid,
    fun idv hid => itp_with_id fields_dict fnv mods hlen hrel hndM idv hid,
    ?_⟩
  intro hid tagged htag
  have homit : omitKeys ["id"] fnv = fnv :=
    omitKeys_absent "id" fnv ((dictGet_eq_none_iff _ _).mp hid)
  have hlen2 : fnv.length = mods.length := by rw [← homit]; exact hlen
  have htsnd : tagged.map (·.2) = mods := by
    rw [htag]; exact zip_tag_snd fnv mods hlen2
  have htkeys : tagged.map (fun q => q.2.1) = mods.map (·.1) := by
    rw [htag]; exact zip_tag_keys fnv mods hlen2
  have hN1 : (tagged.map (fun q => q.2.1)).Nodup := by
    rw [htkeys]; exact hndM
  have hd : ∀ q ∈ tagged, q.2.1 ≠ "defaults" := by
    intro q hq
    exact hdefM q.2 (htsnd ▸ List.mem_map_of_mem (·.2) hq)
  have hres := itp_no_id fields_dict fnv mods hlen2
    (by rw [← homit]; exact hrel) hndF hid
    (merge_deep_all ((List.zipWith
      (fun (kv : String × GVal) (p : String × GVal) =>
        (containsV (.vstr UNIQUE)
          (item_path_or (.vlist [.vnone]) [kv.1, "unique"]
            (.vdict fields_dict)), p)) fnv mods).map
      (fun q => if q.1 then [q.2] else [("defaults", GVal.vdict [q.2])])))
    rfl
  rw [← htag] at hres
  have hMDA : merge_deep_all (tagged.map
      (fun q => if q.1 then [q.2] else [("defaults", GVal.vdict [q.2])])) =
      (tagged.map
        (fun q => if q.1 then [q.2] else
          [("defaults", GVal.vdict [q.2])])).foldl mergeDictsDeep [] := rfl
  rw [hMDA] at hres
  constructor
  · -- no unique field: everything collapses under defaults
    intro hfilt hmods
    have hall : ∀ q ∈ tagged, q.1 = false := by
      intro q hq
      rcases Bool.eq_false_or_eq_true q.1 with ht2 | hf
      · exact absurd hfilt (by
          apply List.ne_nil_of_mem (List.mem_filter.mpr ⟨hq, ht2⟩))
      · exact hf
    rcases htagged : tagged with _ | ⟨q, rest⟩
    · exact absurd (by rw [← htsnd, htagged]; rfl) hmods
    · rw [htagged] at hres hall hN1 htsnd
      have hq1 : q.1 = false := hall q (by simp)
      have hwrap : (q :: rest).map
          (fun q => if q.1 then [q.2] else
            [("defaults", GVal.vdict [q.2])]) =
          (q :: rest).map (fun q => [("defaults", GVal.vdict [q.2])]) := by
        apply List.map_congr_left
        intro a ha
        rw [if_neg (by rw [hall a ha]; simp)]
      have hndD : (([q.2].map (·.1)) ++
          ((rest.map (·.2)).map (·.1))).Nodup := by
        simpa [List.map_map, Function.comp] using hN1
      have hms : q.2 :: rest.map (·.2) = mods := by simpa using htsnd
      have hfold : ((q :: rest).map
          (fun q => [("defaults", GVal.vdict [q.2])])).foldl
            mergeDictsDeep [] =
          [("defaults", GVal.vdict mods)] := by
        simp only [List.map_cons, List.foldl_cons]
        have h0 : mergeDictsDeep []
            [("defaults", GVal.vdict [q.2])] =
            [("defaults", GVal.vdict [q.2])] := rfl
        rw [h0,
          show rest.map (fun q => [("defaults", GVal.vdict [q.2])]) =
            (rest.map (·.2)).map
              (fun p => [("defaults", GVal.vdict [p])]) from by
            rw [List.map_map]; rfl,
          mergeDeepAll_defaults_only (rest.map (·.2)) [q.2] hndD]
        rw [show ([q.2] ++ rest.map (·.2) : List (String × GVal)) =
          q.2 :: rest.map (·.2) from by simp, hms]
      rw [hwrap, hfold] at hres
      rw [hres, if_pos (by simp [dictKeys])]
      unfold propE dictGet
      rw [List.find?_cons_of_pos _ (by simp)]
      rfl
  · -- at least one unique field and no single-key collapse
    intro hfne hside
    have hfold := mergeDeepAll_tagged tagged [] []
      (by simp [dictKeys]) rfl hd hN1 (by simp) (by simp)
      (by simp [dictKeys])
    obtain ⟨c1, c2, c3, c4, c5⟩ := hfold
    simp only [List.nil_append] at c3
    obtain ⟨q0, hq0⟩ := List.exists_mem_of_ne_nil _ hfne
    have hq0m := List.mem_filter.mp hq0
    have hq0K : q0.2.1 ∈ dictKeys ((tagged.map
        (fun q => if q.1 then [q.2] else
          [("defaults", GVal.vdict [q.2])])).foldl mergeDictsDeep []) :=
      dictGet_some_mem (c1 q0 hq0m.1 hq0m.2)
    have h2le : 2 ≤ (dictKeys ((tagged.map
        (fun q => if q.1 then [q.2] else
          [("defaults", GVal.vdict [q.2])])).foldl
          mergeDictsDeep [])).length := by
      rcases hside with hdm | h2
      · have hdne : ¬ ((tagged.filter (fun q => !q.1)).map
            (·.2)).isEmpty = true := by
          simpa [List.isEmpty_iff] using hdm
        rw [if_neg hdne] at c3
        exact two_le_length_of_two_mem hq0K (dictGet_some_mem c3)
          (hd q0 hq0m.1)
      · rcases hfl : tagged.filter (fun q => q.1) with _ | ⟨q0a, restf⟩
        · rw [hfl] at h2; simp at h2
        · rcases hrf : restf with _ | ⟨q1a, restf2⟩
          · rw [hfl, hrf] at h2; simp at h2
          · rw [hrf] at hfl
            have hndf : ((tagged.filter (fun q => q.1)).map
                (fun q => q.2.1)).Nodup :=
              hN1.sublist (List.Sublist.map _ (List.filter_sublist _))
            rw [hfl] at hndf
            simp only [List.map_cons, List.nodup_cons] at hndf
            have hkne : q0a.2.1 ≠ q1a.2.1 := by
              intro hh
              exact hndf.1 (by rw [hh]; simp)
            have hq0am := List.mem_filter.mp
              (show q0a ∈ tagged.filter (fun q => q.1) from by
                rw [hfl]; simp)
            have hq1am := List.mem_filter.mp
              (show q1a ∈ tagged.filter (fun q => q.1) from by
                rw [hfl]; simp)
            exact two_le_length_of_two_mem
              (dictGet_some_mem (c1 q0a hq0am.1 hq0am.2))
              (dictGet_some_mem (c1 q1a hq1am.1 hq1am.2)) hkne
    rw [hres, if_neg (by omega)]
    refine ⟨(tagged.map
      (fun q => if q.1 then [q.2] else
        [("defaults", GVal.vdict [q.2])])).foldl mergeDictsDeep [],
      rfl, c1, ?_, ?_⟩
    · by_cases hdm : (tagged.filter (fun q => !q.1)).map (·.2) = []
      · exact .inr ⟨hdm, by rw [c3, if_pos (by simp [hdm])]⟩
      · refine .inl ?_
        rw [c3, if_neg (by simpa [List.isEmpty_iff] using hdm)]
    · intro x hx
      rcases c4 x hx with h1 | h1 | h1
      · simp [dictKeys] at h1
      · exact .inl h1
      · exact .inr h1

/-- Witness for C2 at a concrete model: a foreign-key `region` field and a
plain `name` field, updated with an `id`. -/
theorem C2_input_type_parameters_witness :
    input_type_parameters_for_update_or_create
      [("region", GVal.vdict [("django_type", GVal.vstr "Region")]),
       ("name", GVal.vdict [])]
      [("id", GVal.vint 7), ("region", GVal.vdict [("id", GVal.vint 5)]),
       ("name", GVal.vstr "n1")] =
      .ok (.vdict [("id", GVal.vint 7),
        ("defaults", .vdict [("region_id", GVal.vint 5),
          ("name", GVal.vstr "n1")])]) :=
  (C2_input_type_parameters
    [("region", GVal.vdict [("django_type", GVal.vstr "Region")]),
     ("name", GVal.vdict [])]
    [("id", GVal.vint 7), ("region", GVal.vdict [("id", GVal.vint 5)]),
     ("name", GVal.vstr "n1")]
    [("region_id", GVal.vint 5), ("name", GVal.vstr "n1")]
    (by decide) (by intro pr hpr; fin_cases hpr <;> rfl) (by decide)
    (by decide) (by decide)).2.1 (GVal.vint 7) (by decide)

end RescapeGraphene
